import Mathlib

/-!
Verification of `binstarsolver/utils.py`: the inclination solver
`calc_incl_from_radii_ratios_phase_incl` and the pure geometry formulas it
composes (`calc_sep_proj_from_incl_phase`, `calc_radii_sep_from_seps`,
`calc_radii_ratio_from_rads`).

The Python code computes with IEEE-754 float64 through numba/numpy.  The
embedding models a float64 value as a finite real number, a signed infinity,
or NaN (type `F` below); rounding is not modelled, since every claim settled
here concerns control flow or exact algebra at inputs where exact-real and
float64 evaluation take the same branches.  NaN compares false under every
ordering comparison, exactly as in IEEE arithmetic; in this code NaN enters
only as the solver's `np.nan` no-solution sentinel.  Float division by zero
does not produce a value at all: the formula functions are compiled with
`numba.jit(nopython=True)` under numba's default `error_model='python'`,
which — like CPython float division — raises `ZeroDivisionError`, modelled
with an explicit error value.
-/

open Real
open scoped Classical

noncomputable section

/-- A float64 value: finite real, signed infinity (`pos = true` for `+∞`),
or NaN. -/
inductive F where
  | fin (x : ℝ)
  | inf (pos : Bool)
  | nan

/-- IEEE `<` on float values: NaN compares false against everything. -/
def F.ltP : F → F → Prop
  | .fin a, .fin b => a < b
  | .fin _, .inf p => p = true
  | .inf p, .fin _ => p = false
  | .inf p, .inf q => p = false ∧ q = true
  | _, _ => False

/-- IEEE `≤` on float values: NaN compares false against everything. -/
def F.leP : F → F → Prop
  | .fin a, .fin b => a ≤ b
  | .fin _, .inf p => p = true
  | .inf p, .fin _ => p = false
  | .inf p, .inf q => p = false ∨ q = true
  | _, _ => False

/-- IEEE subtraction restricted to the shapes reachable in this code. -/
def F.sub : F → F → F
  | .fin a, .fin b => .fin (a - b)
  | .fin _, .inf p => .inf (!p)
  | .inf p, .fin _ => .inf p
  | .inf p, .inf q => if p = q then .nan else .inf p
  | _, _ => .nan

/-- IEEE absolute value. -/
def F.absF : F → F
  | .fin a => .fin |a|
  | .inf _ => .inf true
  | .nan => .nan

@[simp] theorem F.ltP_fin_fin {a b : ℝ} : F.ltP (.fin a) (.fin b) ↔ a < b := Iff.rfl
@[simp] theorem F.leP_fin_fin {a b : ℝ} : F.leP (.fin a) (.fin b) ↔ a ≤ b := Iff.rfl
@[simp] theorem F.ltP_nan_left {b : F} : ¬ F.ltP .nan b := by cases b <;> simp [F.ltP]
@[simp] theorem F.ltP_nan_right {a : F} : ¬ F.ltP a .nan := by cases a <;> simp [F.ltP]
@[simp] theorem F.leP_nan_left {b : F} : ¬ F.leP .nan b := by cases b <;> simp [F.leP]
@[simp] theorem F.leP_nan_right {a : F} : ¬ F.leP a .nan := by cases a <;> simp [F.leP]
@[simp] theorem F.sub_fin_fin {a b : ℝ} : F.sub (.fin a) (.fin b) = .fin (a - b) := rfl
@[simp] theorem F.sub_fin_nan {a : ℝ} : F.sub (.fin a) .nan = .nan := rfl
@[simp] theorem F.sub_nan_left {b : F} : F.sub .nan b = .nan := by cases b <;> rfl
@[simp] theorem F.absF_fin {a : ℝ} : F.absF (.fin a) = .fin |a| := rfl

/-! ## Geometry formulas (source: `binstarsolver/utils.py`) -/

/-- Source `calc_sep_proj_from_incl_phase`:
`sep_proj = sqrt(cos(incl)**2 + sin(phase_orb)**2 * sin(incl)**2)`.
The arguments are real angles and the square-root argument is a sum of
squares, hence never negative, so the result is a finite real. -/
def calc_sep_proj_from_incl_phase (incl phase_orb : ℝ) : ℝ :=
  Real.sqrt (Real.cos incl ^ 2 + Real.sin phase_orb ^ 2 * Real.sin incl ^ 2)

/-- Source `calc_radii_sep_from_seps`:
`radius_sep_s = (sep_proj_ext - sep_proj_int) / 2`,
`radius_sep_g = (sep_proj_ext + sep_proj_int) / 2`, returned as a pair
`(rs, rg)`. -/
def calc_radii_sep_from_seps (sep_proj_ext sep_proj_int : ℝ) : ℝ × ℝ :=
  ((sep_proj_ext - sep_proj_int) / 2, (sep_proj_ext + sep_proj_int) / 2)

/-- A raised Python error, as distinguished from a returned value. -/
inductive PyErr where
  | assertionError
  | unboundLocal
  | zeroDivisionError

/-- `e` returned normally (was not a raised error). -/
def returnsValue {α : Type} (e : Except PyErr α) : Prop :=
  ∃ r, e = Except.ok r

/-- Source `calc_radii_ratio_from_rads`: the single float64 division
`radius_sep_s / radius_sep_g`, compiled by `numba.jit(nopython=True)` under
numba's default `error_model='python'`, which — like CPython float
division — raises `ZeroDivisionError` when the denominator is zero and
otherwise returns the quotient. -/
def calc_radii_ratio_from_rads (radius_sep_s radius_sep_g : ℝ) :
    Except PyErr ℝ :=
  if radius_sep_g = 0 then .error .zeroDivisionError
  else .ok (radius_sep_s / radius_sep_g)

/-! ## Claim C8: projected separation formula and range -/

/-- C8: for every inclination in `(0, π/2)` and every real phase,
`calc_sep_proj_from_incl_phase incl phase` equals
`sqrt(cos incl ^ 2 + sin phase ^ 2 * sin incl ^ 2)` and lies in `[0, 1]`. -/
theorem C8_sep_proj_formula_and_range (incl phase : ℝ)
    (h0 : 0 < incl) (h1 : incl < π / 2) :
    calc_sep_proj_from_incl_phase incl phase =
      Real.sqrt (Real.cos incl ^ 2 + Real.sin phase ^ 2 * Real.sin incl ^ 2) ∧
    0 ≤ calc_sep_proj_from_incl_phase incl phase ∧
    calc_sep_proj_from_incl_phase incl phase ≤ 1 := by
  refine ⟨rfl, Real.sqrt_nonneg _, ?_⟩
  rw [show (1 : ℝ) = Real.sqrt 1 by rw [Real.sqrt_one]]
  apply Real.sqrt_le_sqrt
  nlinarith [Real.sin_sq_add_cos_sq incl, Real.sin_sq_le_one phase,
    sq_nonneg (Real.sin incl)]

/-- Witness for C8 at `incl = π/4`, `phase = 0`. -/
theorem C8_witness :
    0 < π / 4 ∧ π / 4 < π / 2 ∧
    (calc_sep_proj_from_incl_phase (π / 4) 0 =
        Real.sqrt (Real.cos (π / 4) ^ 2 + Real.sin 0 ^ 2 * Real.sin (π / 4) ^ 2) ∧
      0 ≤ calc_sep_proj_from_incl_phase (π / 4) 0 ∧
      calc_sep_proj_from_incl_phase (π / 4) 0 ≤ 1) :=
  ⟨by positivity, by linarith [pi_pos],
    C8_sep_proj_formula_and_range (π / 4) 0 (by positivity) (by linarith [pi_pos])⟩

/-! ## Claim C9: radii from separations round-trip -/

/-- C9: for `0 ≤ radius_small` and `radius_small < radius_large`,
feeding `sep_ext = radius_small + radius_large` and
`sep_int = radius_large - radius_small` back through
`calc_radii_sep_from_seps` reproduces `(radius_small, radius_large)`
exactly (the embedding is exact real arithmetic). -/
theorem C9_radii_sep_round_trip (radius_small radius_large : ℝ)
    (h0 : 0 ≤ radius_small) (h1 : radius_small < radius_large) :
    calc_radii_sep_from_seps (radius_small + radius_large)
        (radius_large - radius_small) = (radius_small, radius_large) := by
  unfold calc_radii_sep_from_seps
  rw [Prod.mk.injEq]
  constructor <;> ring

/-- Witness for C9 at `(radius_small, radius_large) = (0, 1)`. -/
theorem C9_witness :
    calc_radii_sep_from_seps (0 + 1) (1 - 0) = ((0 : ℝ), (1 : ℝ)) :=
  C9_radii_sep_round_trip 0 1 le_rfl one_pos

/-! ## Claim C10: radii ratio division and the zero denominator -/

/-- Counterexample to C10 as stated: at `radius_sep_s = 1`,
`radius_sep_g = 0`, the division raises `ZeroDivisionError` (numba's
default `error_model='python'`); it does not return NaN — it does not
return at all. -/
theorem C10_counterexample :
    calc_radii_ratio_from_rads 1 0 = Except.error PyErr.zeroDivisionError ∧
    ¬ returnsValue (calc_radii_ratio_from_rads 1 0) := by
  constructor
  · unfold calc_radii_ratio_from_rads; rw [if_pos rfl]
  · rintro ⟨r, hr⟩
    rw [show calc_radii_ratio_from_rads 1 0 =
      Except.error PyErr.zeroDivisionError from by
        unfold calc_radii_ratio_from_rads; rw [if_pos rfl]] at hr
    exact Except.noConfusion hr

/-- C10 amended: `calc_radii_ratio_from_rads` returns the exact quotient
`radius_sep_s / radius_sep_g` when the denominator is non-zero, and raises
`ZeroDivisionError` (returning no value) when the denominator is zero; it
never produces NaN. -/
theorem C10_division_raises_on_zero (radius_sep_s radius_sep_g : ℝ) :
    (radius_sep_g ≠ 0 →
      calc_radii_ratio_from_rads radius_sep_s radius_sep_g =
        Except.ok (radius_sep_s / radius_sep_g)) ∧
    (radius_sep_g = 0 →
      calc_radii_ratio_from_rads radius_sep_s radius_sep_g =
          Except.error PyErr.zeroDivisionError ∧
        ¬ returnsValue (calc_radii_ratio_from_rads radius_sep_s radius_sep_g)) := by
  refine ⟨fun hg => ?_, fun hg => ?_⟩
  · unfold calc_radii_ratio_from_rads; rw [if_neg hg]
  · have he : calc_radii_ratio_from_rads radius_sep_s radius_sep_g =
        Except.error PyErr.zeroDivisionError := by
      unfold calc_radii_ratio_from_rads; rw [if_pos hg]
    exact ⟨he, fun ⟨r, hr⟩ => Except.noConfusion (he ▸ hr)⟩

/-- Witness for C10 amended: a finite quotient and a raised division. -/
theorem C10_witness :
    calc_radii_ratio_from_rads 1 2 = Except.ok (1 / 2 : ℝ) ∧
    calc_radii_ratio_from_rads 0 0 = Except.error PyErr.zeroDivisionError :=
  ⟨(C10_division_raises_on_zero 1 2).1 (by norm_num),
   ((C10_division_raises_on_zero 0 0).2 rfl).1⟩

/-! ## The inclination solver (source: `calc_incl_from_radii_ratios_phase_incl`) -/

/-- Source closure `radii_ratio_rad`: the three geometry formulas composed
at fixed phases, as a function of the candidate inclination; the division
can raise `ZeroDivisionError`, which happens exactly when both projected
separations are zero. -/
def radii_ratio_rad (phase_orb_ext phase_orb_int incl : ℝ) : Except PyErr ℝ :=
  calc_radii_ratio_from_rads
    (calc_radii_sep_from_seps
      (calc_sep_proj_from_incl_phase incl phase_orb_ext)
      (calc_sep_proj_from_incl_phase incl phase_orb_int)).1
    (calc_radii_sep_from_seps
      (calc_sep_proj_from_incl_phase incl phase_orb_ext)
      (calc_sep_proj_from_incl_phase incl phase_orb_int)).2

/-- Source closure `diff_radii_ratios`:
`radii_ratio_lt - radii_ratio_rad(incl)`, as a float64 value. Every solver
statement proved below is instantiated only on inputs where the division
cannot raise (the denominator `(se + si) / 2` vanishes only at the
exact-degenerate point `incl = π/2` with `sin phase_orb_ext = 0` and
`sin phase_orb_int = 0`, see `radii_ratio_rad_zero_division_iff`); the
`.error` branch here is an out-of-domain placeholder, never reached in
those instantiations. -/
def diff_radii_ratios (radii_ratio_lt phase_orb_ext phase_orb_int incl : ℝ) : F :=
  match radii_ratio_rad phase_orb_ext phase_orb_int incl with
  | .ok r => F.fin (radii_ratio_lt - r)
  | .error _ => F.nan

/-- `radii_ratio_rad` evaluated at a float inclination: the trig functions
map NaN and ±∞ to NaN, which propagates to the ratio. The final
plausibility check evaluates the ratio at the possibly-NaN `incl` local.
As in `diff_radii_ratios`, the `.error` branch is an out-of-domain
placeholder. -/
def ratioAtF (phase_orb_ext phase_orb_int : ℝ) : F → F
  | .fin x =>
      match radii_ratio_rad phase_orb_ext phase_orb_int x with
      | .ok r => F.fin r
      | .error _ => F.nan
  | _ => F.nan

/-- `np.linspace(start, stop, num=10, endpoint=True)`: ten equally spaced
points from `a` to `b` inclusive (`a + k*(b-a)/9` is exactly `b` at `k = 9`
in real arithmetic). -/
def linspace (a b : ℝ) : List ℝ :=
  (List.range 10).map fun k => a + k * ((b - a) / 9)

/-- `np.deg2rad`. -/
def deg2rad (x : ℝ) : ℝ := x * (π / 180)

/-- The initial sample inclinations
`np.deg2rad(np.linspace(start=0.0, stop=90.0, num=10, endpoint=True))`. -/
def incls0 : List ℝ := (linspace 0 90).map deg2rad

/-- `np.diff`: consecutive differences `l[k+1] - l[k]` (IEEE subtraction). -/
def npDiff (l : List F) : List F := List.zipWith F.sub l.tail l

/-- `np.all(np.diff(diffs) <= 0.0)`: every consecutive difference compares
`≤ 0`; a NaN difference compares false, failing the check, as in IEEE. -/
def monoCheck (l : List F) : Prop := ∀ d ∈ npDiff l, F.leP d (F.fin 0)

/-- `len(diffs[diffs > 0.0])`: how many entries compare `> 0` (NaN never does). -/
def cntPos : List F → ℕ
  | [] => 0
  | d :: t => (if F.ltP (F.fin 0) d then 1 else 0) + cntPos t

/-- `len(diffs[diffs < 0.0])`: how many entries compare `< 0` (NaN never does). -/
def cntNeg : List F → ℕ
  | [] => 0
  | d :: t => (if F.ltP d (F.fin 0) then 1 else 0) + cntNeg t

/-- Python/numpy indexing, with negative indices counting from the end.
Every index the solver uses is in range for its 10-element arrays
(`idx_diff_least_pos ∈ [-1, 9]`, `idx_diff_least_neg ∈ [-10, 0]`), so the
out-of-range default is never reached. -/
def pyGet (l : List ℝ) (i : ℤ) : ℝ :=
  if i < 0 then l.getD ((l.length : ℤ) + i).toNat 0 else l.getD i.toNat 0

/-- `pyGet` for float arrays. -/
def pyGetF (l : List F) (i : ℤ) : F :=
  if i < 0 then l.getD ((l.length : ℤ) + i).toNat F.nan else l.getD i.toNat F.nan

/-- Structured contents of the three `warnings.warn` calls in the solver:
non-convergence and no-solution diagnostics carry the input parameters
formatted by `fmt_parameters`; the plausibility warning carries the two
radii-ratio values it prints. -/
inductive Warn where
  | nonConv (radii_ratio_lt phase_orb_ext phase_orb_int tol : ℝ)
  | plaus (radii_ratio_rad_at_incl : F) (radii_ratio_lt : ℝ)
  | noSoln (radii_ratio_lt phase_orb_ext phase_orb_int tol : ℝ)

/-- The solver's loop-local variables. `incl` is `none` while the Python
local `incl` is still unassigned; `idxPos`/`idxNeg` hold a junk `0` before
their first assignment, and the code reads them only under `inum > 0`,
i.e. after the previous iteration assigned both. -/
structure SolState where
  incls : List ℝ
  diffs : List F
  idxPos : ℤ
  idxNeg : ℤ
  incl : Option F
  itol : F
  inum : ℤ

/-- One iteration of the solver's `while` body: resample when `inum > 0`
(over `[incls[idx_diff_least_pos], incls[idx_diff_least_neg]]` of the
previous iteration), recompute both index counters, set
`incl = incls[idx_diff_least_pos]`, `itol = abs(diff_radii_ratios(incl))`,
and increment `inum`. -/
def solBody (dfun : ℝ → F) (s : SolState) : SolState :=
  let p : List ℝ × List F :=
    if 0 < s.inum then
      let is := linspace (pyGet s.incls s.idxPos) (pyGet s.incls s.idxNeg)
      (is, is.map dfun)
    else (s.incls, s.diffs)
  let ip : ℤ := (cntPos p.2 : ℤ) - 1
  let iq : ℤ := -(cntNeg p.2 : ℤ)
  let incl := pyGet p.1 ip
  ⟨p.1, p.2, ip, iq, some (F.fin incl), F.absF (dfun incl), s.inum + 1⟩

/-- The solver's `while (itol > tol) and (inum < maxiter)` loop. -/
def solLoop (dfun : ℝ → F) (tol : ℝ) (maxiter : ℤ) (s : SolState) : SolState :=
  if h : F.ltP (F.fin tol) s.itol ∧ s.inum < maxiter then
    solLoop dfun tol maxiter (solBody dfun s)
  else s
termination_by (maxiter - s.inum).toNat
decreasing_by
  have h2 := h.2
  simp only [solBody]
  omega

/-- The solver state just before the `while` loop: initial samples and
their diffs, `itol = diffs[0] - diffs[-1]`, `inum = 0`, `incl` unassigned,
index counters not yet assigned. -/
def initState (dfun : ℝ → F) : SolState :=
  ⟨incls0, incls0.map dfun, 0, 0, none,
    F.sub (pyGetF (incls0.map dfun) 0) (pyGetF (incls0.map dfun) (-1)), 0⟩

/-- Normal-return result of the solver: the returned float (NaN is the
no-solution sentinel), the warnings emitted in order, and — for inspection
by the theorems — the final state of the bracketing loop. -/
structure RunResult where
  ret : F
  warns : List Warn
  final : SolState

/-- Source `calc_incl_from_radii_ratios_phase_incl`, full model: sample
`diff_radii_ratios` on `incls0`, raise `AssertionError` when the sampled
sequence fails `np.all(np.diff(diffs) <= 0.0)`; when
`diffs[0] > 0 and diffs[-1] < 0` run the zoom loop then apply the
non-convergence check (setting `incl = np.nan` and warning) and the
plausibility check (reading the `incl` local, which raises if it was never
assigned); otherwise return NaN with the no-solution warning. -/
def calcInclFull (radii_ratio_lt phase_orb_ext phase_orb_int tol : ℝ)
    (maxiter : ℤ) : Except PyErr RunResult :=
  let dfun := diff_radii_ratios radii_ratio_lt phase_orb_ext phase_orb_int
  let d0 := incls0.map dfun
  if ¬ monoCheck d0 then .error .assertionError
  else if F.ltP (F.fin 0) (pyGetF d0 0) ∧ F.ltP (pyGetF d0 (-1)) (F.fin 0) then
    let s := solLoop dfun tol maxiter (initState dfun)
    if F.ltP (F.fin tol) s.itol ∧ maxiter ≤ s.inum then
      .ok ⟨F.nan,
        Warn.nonConv radii_ratio_lt phase_orb_ext phase_orb_int tol ::
          (if F.ltP (ratioAtF phase_orb_ext phase_orb_int F.nan) (F.fin (1 / 10))
            then [Warn.plaus (ratioAtF phase_orb_ext phase_orb_int F.nan) radii_ratio_lt]
            else []),
        s⟩
    else
      match s.incl with
      | none => .error .unboundLocal
      | some inclF =>
        .ok ⟨inclF,
          (if F.ltP (ratioAtF phase_orb_ext phase_orb_int inclF) (F.fin (1 / 10))
            then [Warn.plaus (ratioAtF phase_orb_ext phase_orb_int inclF) radii_ratio_lt]
            else []),
          s⟩
  else .ok ⟨F.nan, [Warn.noSoln radii_ratio_lt phase_orb_ext phase_orb_int tol],
    initState dfun⟩

/-- Source `calc_incl_from_radii_ratios_phase_incl`: the returned float
(NaN is the no-solution sentinel) paired with the warnings emitted, or the
raised error. The `show_plots` flag only drives the plotting side channel
and never affects the returned value, so the model omits it. -/
def calc_incl_from_radii_ratios_phase_incl
    (radii_ratio_lt phase_orb_ext phase_orb_int tol : ℝ) (maxiter : ℤ) :
    Except PyErr (F × List Warn) :=
  (calcInclFull radii_ratio_lt phase_orb_ext phase_orb_int tol maxiter).map
    fun r => (r.ret, r.warns)

/-! ## Basic loop lemmas -/

@[simp] theorem solBody_inum (dfun : ℝ → F) (s : SolState) :
    (solBody dfun s).inum = s.inum + 1 := rfl

theorem solLoop_step (dfun : ℝ → F) (tol : ℝ) (maxiter : ℤ) (s : SolState)
    (h : F.ltP (F.fin tol) s.itol ∧ s.inum < maxiter) :
    solLoop dfun tol maxiter s = solLoop dfun tol maxiter (solBody dfun s) := by
  rw [solLoop]
  exact dif_pos h

theorem solLoop_exit (dfun : ℝ → F) (tol : ℝ) (maxiter : ℤ) (s : SolState)
    (h : ¬ (F.ltP (F.fin tol) s.itol ∧ s.inum < maxiter)) :
    solLoop dfun tol maxiter s = s := by
  rw [solLoop]
  exact dif_neg h

theorem solLoop_inum_le_aux (dfun : ℝ → F) (tol : ℝ) (maxiter : ℤ) :
    ∀ n (s : SolState), (maxiter - s.inum).toNat ≤ n →
      (solLoop dfun tol maxiter s).inum ≤ max s.inum maxiter := by
  intro n
  induction n with
  | zero =>
    intro s hs
    rw [solLoop_exit dfun tol maxiter s (fun h => by
      have h2 := h.2
      omega)]
    exact le_max_left _ _
  | succ n ih =>
    intro s hs
    by_cases h : F.ltP (F.fin tol) s.itol ∧ s.inum < maxiter
    · rw [solLoop_step dfun tol maxiter s h]
      have hstep := ih (solBody dfun s) (by simp only [solBody_inum]; omega)
      simp only [solBody_inum] at hstep
      have h2 := h.2
      omega
    · rw [solLoop_exit dfun tol maxiter s h]
      exact le_max_left _ _

/-- The loop body runs at most `max 0 (maxiter - inum)` more times: the
iteration counter of the final state never exceeds `max s.inum maxiter`. -/
theorem solLoop_inum_le (dfun : ℝ → F) (tol : ℝ) (maxiter : ℤ) (s : SolState) :
    (solLoop dfun tol maxiter s).inum ≤ max s.inum maxiter :=
  solLoop_inum_le_aux dfun tol maxiter (maxiter - s.inum).toNat s le_rfl

/-! ## The four exit shapes of the solver, as reusable lemmas -/

theorem run_assert (radii_ratio_lt phase_orb_ext phase_orb_int tol : ℝ)
    (maxiter : ℤ)
    (hm : ¬ monoCheck (incls0.map
      (diff_radii_ratios radii_ratio_lt phase_orb_ext phase_orb_int))) :
    calc_incl_from_radii_ratios_phase_incl
        radii_ratio_lt phase_orb_ext phase_orb_int tol maxiter =
      .error .assertionError := by
  unfold calc_incl_from_radii_ratios_phase_incl calcInclFull
  rw [if_pos hm]
  rfl

theorem run_noSoln (radii_ratio_lt phase_orb_ext phase_orb_int tol : ℝ)
    (maxiter : ℤ)
    (hm : monoCheck (incls0.map
      (diff_radii_ratios radii_ratio_lt phase_orb_ext phase_orb_int)))
    (hnb : ¬ (F.ltP (F.fin 0) (pyGetF (incls0.map
        (diff_radii_ratios radii_ratio_lt phase_orb_ext phase_orb_int)) 0) ∧
      F.ltP (pyGetF (incls0.map
        (diff_radii_ratios radii_ratio_lt phase_orb_ext phase_orb_int)) (-1))
        (F.fin 0))) :
    calc_incl_from_radii_ratios_phase_incl
        radii_ratio_lt phase_orb_ext phase_orb_int tol maxiter =
      .ok (F.nan,
        [Warn.noSoln radii_ratio_lt phase_orb_ext phase_orb_int tol]) := by
  unfold calc_incl_from_radii_ratios_phase_incl calcInclFull
  rw [if_neg (not_not_intro hm), if_neg hnb]
  rfl

theorem run_nonConv (radii_ratio_lt phase_orb_ext phase_orb_int tol : ℝ)
    (maxiter : ℤ)
    (hm : monoCheck (incls0.map
      (diff_radii_ratios radii_ratio_lt phase_orb_ext phase_orb_int)))
    (hb : F.ltP (F.fin 0) (pyGetF (incls0.map
        (diff_radii_ratios radii_ratio_lt phase_orb_ext phase_orb_int)) 0) ∧
      F.ltP (pyGetF (incls0.map
        (diff_radii_ratios radii_ratio_lt phase_orb_ext phase_orb_int)) (-1))
        (F.fin 0))
    (hit : F.ltP (F.fin tol)
      (solLoop (diff_radii_ratios radii_ratio_lt phase_orb_ext phase_orb_int)
        tol maxiter (initState
          (diff_radii_ratios radii_ratio_lt phase_orb_ext phase_orb_int))).itol)
    (hin : maxiter ≤
      (solLoop (diff_radii_ratios radii_ratio_lt phase_orb_ext phase_orb_int)
        tol maxiter (initState
          (diff_radii_ratios radii_ratio_lt phase_orb_ext phase_orb_int))).inum) :
    calc_incl_from_radii_ratios_phase_incl
        radii_ratio_lt phase_orb_ext phase_orb_int tol maxiter =
      .ok (F.nan,
        [Warn.nonConv radii_ratio_lt phase_orb_ext phase_orb_int tol]) := by
  unfold calc_incl_from_radii_ratios_phase_incl calcInclFull
  rw [if_neg (not_not_intro hm), if_pos hb, if_pos ⟨hit, hin⟩]
  have hr : ratioAtF phase_orb_ext phase_orb_int F.nan = F.nan := rfl
  rw [hr, if_neg F.ltP_nan_left]
  rfl

theorem run_unbound (radii_ratio_lt phase_orb_ext phase_orb_int tol : ℝ)
    (maxiter : ℤ)
    (hm : monoCheck (incls0.map
      (diff_radii_ratios radii_ratio_lt phase_orb_ext phase_orb_int)))
    (hb : F.ltP (F.fin 0) (pyGetF (incls0.map
        (diff_radii_ratios radii_ratio_lt phase_orb_ext phase_orb_int)) 0) ∧
      F.ltP (pyGetF (incls0.map
        (diff_radii_ratios radii_ratio_lt phase_orb_ext phase_orb_int)) (-1))
        (F.fin 0))
    (hns : ¬ F.ltP (F.fin tol)
      (initState
        (diff_radii_ratios radii_ratio_lt phase_orb_ext phase_orb_int)).itol) :
    calc_incl_from_radii_ratios_phase_incl
        radii_ratio_lt phase_orb_ext phase_orb_int tol maxiter =
      .error .unboundLocal := by
  have hloop : solLoop (diff_radii_ratios radii_ratio_lt phase_orb_ext phase_orb_int)
      tol maxiter (initState
        (diff_radii_ratios radii_ratio_lt phase_orb_ext phase_orb_int)) =
      initState (diff_radii_ratios radii_ratio_lt phase_orb_ext phase_orb_int) :=
    solLoop_exit _ _ _ _ (fun h => hns h.1)
  unfold calc_incl_from_radii_ratios_phase_incl calcInclFull
  rw [if_neg (not_not_intro hm), if_pos hb, hloop,
    if_neg (fun h => hns h.1)]
  rfl

/-! ## Claim C5: failed monotonicity check raises AssertionError -/

/-- C5: whenever the diff values sampled on the initial ten inclinations
fail the non-increasing check `np.all(np.diff(diffs) <= 0.0)`, the solver
raises `AssertionError` — a fatal failure distinct from the NaN no-solution
return — before any bracketing or return of an inclination. -/
theorem C5_non_monotone_raises_assertion
    (radii_ratio_lt phase_orb_ext phase_orb_int tol : ℝ) (maxiter : ℤ)
    (hm : ¬ monoCheck (incls0.map
      (diff_radii_ratios radii_ratio_lt phase_orb_ext phase_orb_int))) :
    calc_incl_from_radii_ratios_phase_incl
        radii_ratio_lt phase_orb_ext phase_orb_int tol maxiter =
      .error .assertionError ∧
    ¬ returnsValue (calc_incl_from_radii_ratios_phase_incl
        radii_ratio_lt phase_orb_ext phase_orb_int tol maxiter) := by
  have h := run_assert radii_ratio_lt phase_orb_ext phase_orb_int tol maxiter hm
  exact ⟨h, fun ⟨r, hr⟩ => by rw [h] at hr; exact Except.noConfusion hr⟩

/-! ## Claim C2 (amended): no sign change returns the NoSolution sentinel -/

/-- C2 amended: whenever the initial sampled diff sequence passes the
non-increasing check but `diffs[0] > 0 and diffs[-1] < 0` fails (NaN
entries compare false, as in IEEE), the solver neither crashes nor loops:
it returns the NaN sentinel together with exactly the no-solution
diagnostic carrying the input parameters. -/
theorem C2_no_sign_change_returns_no_solution
    (radii_ratio_lt phase_orb_ext phase_orb_int tol : ℝ) (maxiter : ℤ)
    (hm : monoCheck (incls0.map
      (diff_radii_ratios radii_ratio_lt phase_orb_ext phase_orb_int)))
    (hnb : ¬ (F.ltP (F.fin 0) (pyGetF (incls0.map
        (diff_radii_ratios radii_ratio_lt phase_orb_ext phase_orb_int)) 0) ∧
      F.ltP (pyGetF (incls0.map
        (diff_radii_ratios radii_ratio_lt phase_orb_ext phase_orb_int)) (-1))
        (F.fin 0))) :
    calc_incl_from_radii_ratios_phase_incl
        radii_ratio_lt phase_orb_ext phase_orb_int tol maxiter =
      .ok (F.nan,
        [Warn.noSoln radii_ratio_lt phase_orb_ext phase_orb_int tol]) :=
  run_noSoln radii_ratio_lt phase_orb_ext phase_orb_int tol maxiter hm hnb

/-! ## Claim C3: maxiter exhausted returns NaN plus a diagnostic -/

/-- C3: on a bracketed input whose zoom loop stops with `itol` still above
`tol` after `inum ≥ maxiter` rounds, the solver returns the NaN sentinel
(as a value, not an exception) together with exactly the non-convergence
diagnostic carrying `radii_ratio_lt`, `phase_orb_ext`, `phase_orb_int` and
`tol`. -/
theorem C3_exhausted_maxiter_warns_nonconvergence
    (radii_ratio_lt phase_orb_ext phase_orb_int tol : ℝ) (maxiter : ℤ)
    (hm : monoCheck (incls0.map
      (diff_radii_ratios radii_ratio_lt phase_orb_ext phase_orb_int)))
    (hb : F.ltP (F.fin 0) (pyGetF (incls0.map
        (diff_radii_ratios radii_ratio_lt phase_orb_ext phase_orb_int)) 0) ∧
      F.ltP (pyGetF (incls0.map
        (diff_radii_ratios radii_ratio_lt phase_orb_ext phase_orb_int)) (-1))
        (F.fin 0))
    (hit : F.ltP (F.fin tol)
      (solLoop (diff_radii_ratios radii_ratio_lt phase_orb_ext phase_orb_int)
        tol maxiter (initState
          (diff_radii_ratios radii_ratio_lt phase_orb_ext phase_orb_int))).itol)
    (hin : maxiter ≤
      (solLoop (diff_radii_ratios radii_ratio_lt phase_orb_ext phase_orb_int)
        tol maxiter (initState
          (diff_radii_ratios radii_ratio_lt phase_orb_ext phase_orb_int))).inum) :
    calc_incl_from_radii_ratios_phase_incl
        radii_ratio_lt phase_orb_ext phase_orb_int tol maxiter =
      .ok (F.nan,
        [Warn.nonConv radii_ratio_lt phase_orb_ext phase_orb_int tol]) :=
  run_nonConv radii_ratio_lt phase_orb_ext phase_orb_int tol maxiter hm hb hit hin

/-! ## Claim C7: bracketed input with initial span ≤ tol crashes -/

/-- C7: on a bracketed input (monotone samples, `diffs[0] > 0`,
`diffs[-1] < 0`) whose initial endpoint span `diffs[0] - diffs[-1]` does
not compare above `tol`, the while-loop body never executes, so the
plausibility check reads the never-assigned local `incl`: the call raises
instead of returning an inclination or the NaN sentinel. -/
theorem C7_small_initial_span_reads_unbound_local
    (radii_ratio_lt phase_orb_ext phase_orb_int tol : ℝ) (maxiter : ℤ)
    (hm : monoCheck (incls0.map
      (diff_radii_ratios radii_ratio_lt phase_orb_ext phase_orb_int)))
    (hb : F.ltP (F.fin 0) (pyGetF (incls0.map
        (diff_radii_ratios radii_ratio_lt phase_orb_ext phase_orb_int)) 0) ∧
      F.ltP (pyGetF (incls0.map
        (diff_radii_ratios radii_ratio_lt phase_orb_ext phase_orb_int)) (-1))
        (F.fin 0))
    (hns : ¬ F.ltP (F.fin tol)
      (initState
        (diff_radii_ratios radii_ratio_lt phase_orb_ext phase_orb_int)).itol) :
    calc_incl_from_radii_ratios_phase_incl
        radii_ratio_lt phase_orb_ext phase_orb_int tol maxiter =
      .error .unboundLocal ∧
    ¬ returnsValue (calc_incl_from_radii_ratios_phase_incl
        radii_ratio_lt phase_orb_ext phase_orb_int tol maxiter) := by
  have h := run_unbound radii_ratio_lt phase_orb_ext phase_orb_int tol maxiter hm hb hns
  exact ⟨h, fun ⟨r, hr⟩ => by rw [h] at hr; exact Except.noConfusion hr⟩

/-! ## Claim C6 (amended): bounded rounds; maxiter = 0 characterized -/

/-- C6 amended: the zoom loop always terminates with its iteration counter
bounded by `max inum maxiter` (so at most `maxiter` rounds from a fresh
call), and with `maxiter = 0` no zoom round runs and the outcome is fully
deterministic: `AssertionError` when the monotonicity check fails; on a
bracketed input, the NaN sentinel with the non-convergence diagnostic when
the initial span exceeds `tol`, and otherwise the read of the unassigned
`incl` local raises; on an unbracketed input, the NaN sentinel with the
no-solution diagnostic. An inclination estimate is never returned. -/
theorem C6_bounded_rounds_and_maxiter_zero :
    (∀ (dfun : ℝ → F) (tol : ℝ) (maxiter : ℤ) (s : SolState),
        (solLoop dfun tol maxiter s).inum ≤ max s.inum maxiter) ∧
    (∀ radii_ratio_lt phase_orb_ext phase_orb_int tol : ℝ,
      calc_incl_from_radii_ratios_phase_incl
          radii_ratio_lt phase_orb_ext phase_orb_int tol 0 =
        if monoCheck (incls0.map
            (diff_radii_ratios radii_ratio_lt phase_orb_ext phase_orb_int)) then
          (if F.ltP (F.fin 0) (pyGetF (incls0.map
                (diff_radii_ratios radii_ratio_lt phase_orb_ext phase_orb_int)) 0) ∧
              F.ltP (pyGetF (incls0.map
                  (diff_radii_ratios radii_ratio_lt phase_orb_ext phase_orb_int))
                  (-1)) (F.fin 0) then
            (if F.ltP (F.fin tol)
                (initState (diff_radii_ratios
                  radii_ratio_lt phase_orb_ext phase_orb_int)).itol then
              .ok (F.nan,
                [Warn.nonConv radii_ratio_lt phase_orb_ext phase_orb_int tol])
            else .error .unboundLocal)
          else .ok (F.nan,
            [Warn.noSoln radii_ratio_lt phase_orb_ext phase_orb_int tol]))
        else .error .assertionError) := by
  refine ⟨solLoop_inum_le, fun rrl poe poi tol => ?_⟩
  by_cases hm : monoCheck (incls0.map (diff_radii_ratios rrl poe poi))
  · rw [if_pos hm]
    by_cases hb : F.ltP (F.fin 0)
          (pyGetF (incls0.map (diff_radii_ratios rrl poe poi)) 0) ∧
        F.ltP (pyGetF (incls0.map (diff_radii_ratios rrl poe poi)) (-1)) (F.fin 0)
    · rw [if_pos hb]
      have hloop : solLoop (diff_radii_ratios rrl poe poi) tol 0
          (initState (diff_radii_ratios rrl poe poi)) =
          initState (diff_radii_ratios rrl poe poi) :=
        solLoop_exit _ _ _ _ (fun h => by
          have h2 := h.2
          have : (initState (diff_radii_ratios rrl poe poi)).inum = 0 := rfl
          omega)
      by_cases hit : F.ltP (F.fin tol)
          (initState (diff_radii_ratios rrl poe poi)).itol
      · rw [if_pos hit]
        refine run_nonConv rrl poe poi tol 0 hm hb ?_ ?_
        · rw [hloop]; exact hit
        · rw [hloop]; exact le_refl 0
      · rw [if_neg hit]
        exact run_unbound rrl poe poi tol 0 hm hb hit
    · rw [if_neg hb]
      exact run_noSoln rrl poe poi tol 0 hm hb
  · rw [if_neg hm]
    exact run_assert rrl poe poi tol 0 hm

/-! ## Concrete evaluation: the initial sample grid -/

theorem incls0_eq :
    incls0 = [0, π / 18, π / 9, π / 6, 2 * π / 9, 5 * π / 18, π / 3,
      7 * π / 18, 4 * π / 9, π / 2] := by
  unfold incls0 linspace deg2rad
  rw [show List.range 10 = [0, 1, 2, 3, 4, 5, 6, 7, 8, 9] from rfl]
  simp only [List.map]
  norm_num
  constructor
  · ring
  constructor
  · ring
  constructor
  · ring
  constructor
  · ring
  constructor
  · ring
  constructor
  · ring
  constructor
  · ring
  constructor
  · ring
  ring

/-! ## Concrete evaluation: diffs for `phase_orb_ext = π/2`, `phase_orb_int = 0` -/

theorem sep_proj_phase_pi_div_two (incl : ℝ) :
    calc_sep_proj_from_incl_phase incl (π / 2) = 1 := by
  unfold calc_sep_proj_from_incl_phase
  rw [Real.sin_pi_div_two]
  rw [show Real.cos incl ^ 2 + 1 ^ 2 * Real.sin incl ^ 2 =
      Real.sin incl ^ 2 + Real.cos incl ^ 2 by ring]
  rw [Real.sin_sq_add_cos_sq, Real.sqrt_one]

theorem sep_proj_phase_zero (incl : ℝ) (h : 0 ≤ Real.cos incl) :
    calc_sep_proj_from_incl_phase incl 0 = Real.cos incl := by
  unfold calc_sep_proj_from_incl_phase
  rw [Real.sin_zero]
  rw [show Real.cos incl ^ 2 + 0 ^ 2 * Real.sin incl ^ 2 =
      Real.cos incl ^ 2 by ring]
  rw [Real.sqrt_sq_eq_abs, abs_of_nonneg h]

theorem rrr_pi2_zero (incl : ℝ) (h : 0 ≤ Real.cos incl) :
    radii_ratio_rad (π / 2) 0 incl =
      Except.ok ((1 - Real.cos incl) / (1 + Real.cos incl)) := by
  unfold radii_ratio_rad calc_radii_sep_from_seps
  rw [sep_proj_phase_pi_div_two, sep_proj_phase_zero incl h]
  unfold calc_radii_ratio_from_rads
  have hne : (1 + Real.cos incl) / 2 ≠ 0 := by positivity
  rw [if_neg hne]
  congr 1
  show (1 - Real.cos incl) / 2 / ((1 + Real.cos incl) / 2) =
    (1 - Real.cos incl) / (1 + Real.cos incl)
  have h2 : (1 + Real.cos incl) ≠ 0 := by positivity
  field_simp

theorem diff_pi2_zero (radii_ratio_lt incl : ℝ) (h : 0 ≤ Real.cos incl) :
    diff_radii_ratios radii_ratio_lt (π / 2) 0 incl =
      F.fin (radii_ratio_lt - (1 - Real.cos incl) / (1 + Real.cos incl)) := by
  unfold diff_radii_ratios
  rw [rrr_pi2_zero incl h]

/-- A projected separation vanishes only at the exact-degenerate point:
inclination `π/2` with `sin phase = 0`. -/
theorem sep_proj_eq_zero_iff (incl phase : ℝ) (h0 : 0 ≤ incl)
    (h2 : incl ≤ π / 2) :
    calc_sep_proj_from_incl_phase incl phase = 0 ↔
      incl = π / 2 ∧ Real.sin phase = 0 := by
  unfold calc_sep_proj_from_incl_phase
  rw [Real.sqrt_eq_zero (by positivity)]
  constructor
  · intro h
    have hprod : 0 ≤ Real.sin phase ^ 2 * Real.sin incl ^ 2 :=
      mul_nonneg (sq_nonneg _) (sq_nonneg _)
    have hc2 : Real.cos incl ^ 2 = 0 := by
      have := sq_nonneg (Real.cos incl)
      linarith
    have hcos : Real.cos incl = 0 := by
      have := sq_eq_zero_iff.mp hc2
      exact this
    have hincl : incl = π / 2 := by
      rcases lt_or_eq_of_le h2 with hlt | heq
      · exfalso
        have hpos : 0 < Real.cos incl :=
          Real.cos_pos_of_mem_Ioo ⟨by linarith [pi_pos], hlt⟩
        linarith
      · exact heq
    have hsin1 : Real.sin incl = 1 := by rw [hincl, Real.sin_pi_div_two]
    have hsp : Real.sin phase ^ 2 * Real.sin incl ^ 2 = 0 := by linarith
    rw [hsin1] at hsp
    have hsq : Real.sin phase ^ 2 = 0 := by nlinarith
    exact ⟨hincl, sq_eq_zero_iff.mp hsq⟩
  · rintro ⟨hincl, hphase⟩
    rw [hincl, Real.cos_pi_div_two, hphase]
    ring

/-- The division inside `radii_ratio_rad` raises exactly at the
exact-degenerate point: inclination `π/2` with both phase sines zero
(then both projected separations are `0`, so the denominator
`(sep_ext + sep_int) / 2` is `0`). -/
theorem radii_ratio_rad_zero_division_iff (poe poi x : ℝ) (hx0 : 0 ≤ x)
    (hx2 : x ≤ π / 2) :
    radii_ratio_rad poe poi x = Except.error PyErr.zeroDivisionError ↔
      (x = π / 2 ∧ Real.sin poe = 0 ∧ Real.sin poi = 0) := by
  have hse : 0 ≤ calc_sep_proj_from_incl_phase x poe := Real.sqrt_nonneg _
  have hsi : 0 ≤ calc_sep_proj_from_incl_phase x poi := Real.sqrt_nonneg _
  have hrr : radii_ratio_rad poe poi x =
      calc_radii_ratio_from_rads
        ((calc_sep_proj_from_incl_phase x poe -
          calc_sep_proj_from_incl_phase x poi) / 2)
        ((calc_sep_proj_from_incl_phase x poe +
          calc_sep_proj_from_incl_phase x poi) / 2) := rfl
  rw [hrr]
  unfold calc_radii_ratio_from_rads
  by_cases hz : (calc_sep_proj_from_incl_phase x poe +
      calc_sep_proj_from_incl_phase x poi) / 2 = 0
  · rw [if_pos hz]
    have h1 : calc_sep_proj_from_incl_phase x poe = 0 := by linarith
    have h2 : calc_sep_proj_from_incl_phase x poi = 0 := by linarith
    have he := (sep_proj_eq_zero_iff x poe hx0 hx2).mp h1
    have hi := (sep_proj_eq_zero_iff x poi hx0 hx2).mp h2
    exact iff_of_true rfl ⟨he.1, he.2, hi.2⟩
  · rw [if_neg hz]
    constructor
    · intro h
      exact Except.noConfusion h
    · rintro ⟨hx, hpe, hpi⟩
      refine absurd ?_ hz
      rw [(sep_proj_eq_zero_iff x poe hx0 hx2).mpr ⟨hx, hpe⟩,
        (sep_proj_eq_zero_iff x poi hx0 hx2).mpr ⟨hx, hpi⟩]
      norm_num

/-! ## Sign facts for the target value `radii_ratio_lt = 1/3` -/

theorem g_lt_third {c : ℝ} (h : 1 / 2 < c) : (1 - c) / (1 + c) < 1 / 3 := by
  rw [div_lt_iff (by linarith : (0:ℝ) < 1 + c)]
  nlinarith

theorem third_lt_g {c : ℝ} (h0 : -1 < c) (h : c < 1 / 2) :
    1 / 3 < (1 - c) / (1 + c) := by
  rw [lt_div_iff (by linarith : (0:ℝ) < 1 + c)]
  nlinarith

theorem g_nonneg {c : ℝ} (h0 : -1 < c) (h1 : c ≤ 1) : 0 ≤ (1 - c) / (1 + c) := by
  apply div_nonneg (by linarith) (by linarith)

theorem cos_gt_half {x : ℝ} (h0 : 0 ≤ x) (h1 : x < π / 3) : 1 / 2 < Real.cos x := by
  rw [← Real.cos_pi_div_three]
  exact Real.cos_lt_cos_of_nonneg_of_le_pi h0 (by linarith [pi_pos]) h1

theorem cos_lt_half {x : ℝ} (h0 : π / 3 < x) (h1 : x ≤ π) : Real.cos x < 1 / 2 := by
  rw [← Real.cos_pi_div_three]
  exact Real.cos_lt_cos_of_nonneg_of_le_pi (by positivity) h1 h0

theorem cos_ge_half {x : ℝ} (h0 : 0 ≤ x) (h1 : x ≤ π / 3) : 1 / 2 ≤ Real.cos x := by
  rw [← Real.cos_pi_div_three]
  exact Real.cos_le_cos_of_nonneg_of_le_pi h0 (by linarith [pi_pos]) h1

theorem cos_le_half {x : ℝ} (h0 : π / 3 ≤ x) (h1 : x ≤ π) : Real.cos x ≤ 1 / 2 := by
  rw [← Real.cos_pi_div_three]
  exact Real.cos_le_cos_of_nonneg_of_le_pi (by positivity) h1 h0

theorem d13_pos {x : ℝ} (h0 : 0 ≤ x) (h1 : x < π / 3) :
    F.ltP (F.fin 0) (diff_radii_ratios (1 / 3) (π / 2) 0 x) := by
  have hc := cos_gt_half h0 h1
  rw [diff_pi2_zero _ _ (by linarith)]
  simp only [F.ltP_fin_fin]
  have := g_lt_third hc
  linarith

theorem d13_neg {x : ℝ} (h0 : π / 3 < x) (h1 : x ≤ π / 2) :
    F.ltP (diff_radii_ratios (1 / 3) (π / 2) 0 x) (F.fin 0) := by
  have hx0 : (0:ℝ) ≤ x := le_trans (by positivity) (le_of_lt h0)
  have hcn : 0 ≤ Real.cos x :=
    Real.cos_nonneg_of_mem_Icc ⟨by linarith [pi_pos], h1⟩
  have hc := cos_lt_half h0 (by linarith [pi_pos])
  rw [diff_pi2_zero _ _ hcn]
  simp only [F.ltP_fin_fin]
  have := third_lt_g (by linarith) hc
  linarith

theorem d13_notPos {x : ℝ} (h0 : π / 3 ≤ x) (h1 : x ≤ π / 2) :
    ¬ F.ltP (F.fin 0) (diff_radii_ratios (1 / 3) (π / 2) 0 x) := by
  have hcn : 0 ≤ Real.cos x :=
    Real.cos_nonneg_of_mem_Icc ⟨by linarith [pi_pos], h1⟩
  have hc := cos_le_half h0 (by linarith [pi_pos])
  rw [diff_pi2_zero _ _ hcn]
  simp only [F.ltP_fin_fin]
  rcases lt_or_eq_of_le hc with hlt | heq
  · have := third_lt_g (by linarith) hlt
    linarith
  · rw [heq]
    norm_num

theorem d13_notNeg {x : ℝ} (h0 : 0 ≤ x) (h1 : x ≤ π / 3) :
    ¬ F.ltP (diff_radii_ratios (1 / 3) (π / 2) 0 x) (F.fin 0) := by
  have hc := cos_ge_half h0 h1
  rw [diff_pi2_zero _ _ (by linarith)]
  simp only [F.ltP_fin_fin]
  rcases lt_or_eq_of_le hc with hlt | heq
  · have := g_lt_third hlt
    linarith
  · rw [← heq]
    norm_num

theorem diff_pair_le (radii_ratio_lt x y : ℝ) (hx0 : 0 ≤ x) (hxy : x ≤ y)
    (hy : y ≤ π / 2) :
    F.leP (F.sub (diff_radii_ratios radii_ratio_lt (π / 2) 0 y)
      (diff_radii_ratios radii_ratio_lt (π / 2) 0 x)) (F.fin 0) := by
  have hcy : 0 ≤ Real.cos y :=
    Real.cos_nonneg_of_mem_Icc ⟨by linarith [pi_pos], hy⟩
  have hcx : 0 ≤ Real.cos x :=
    Real.cos_nonneg_of_mem_Icc ⟨by linarith [pi_pos], by linarith⟩
  have hcc : Real.cos y ≤ Real.cos x :=
    Real.cos_le_cos_of_nonneg_of_le_pi hx0 (by linarith [pi_pos]) hxy
  rw [diff_pi2_zero _ _ hcy, diff_pi2_zero _ _ hcx, F.sub_fin_fin]
  simp only [F.leP_fin_fin]
  have hgy : (1 - Real.cos x) / (1 + Real.cos x) ≤
      (1 - Real.cos y) / (1 + Real.cos y) := by
    rw [div_le_div_iff (by linarith) (by linarith)]
    nlinarith
  linarith

/-- Any target ratio gives a non-increasing initial diff sample sequence at
phases `(π/2, 0)`: the monotonicity assertion passes. -/
theorem monoCheck_pi2_zero (radii_ratio_lt : ℝ) :
    monoCheck (incls0.map (diff_radii_ratios radii_ratio_lt (π / 2) 0)) := by
  rw [incls0_eq]
  intro d hd
  simp only [List.map, npDiff, List.tail, List.zipWith, List.mem_cons,
    List.not_mem_nil, or_false] at hd
  rcases hd with h | h | h | h | h | h | h | h | h <;> rw [h] <;>
    exact diff_pair_le radii_ratio_lt _ _ (by linarith [pi_pos])
      (by linarith [pi_pos]) (by linarith [pi_pos])

/-! ## Concrete run for `radii_ratio_lt = 1/3`, phases `(π/2, 0)` -/

@[simp] theorem initState_incls (dfun : ℝ → F) : (initState dfun).incls = incls0 := rfl
@[simp] theorem initState_diffs (dfun : ℝ → F) :
    (initState dfun).diffs = incls0.map dfun := rfl
@[simp] theorem initState_inum (dfun : ℝ → F) : (initState dfun).inum = 0 := rfl
@[simp] theorem initState_incl (dfun : ℝ → F) : (initState dfun).incl = none := rfl

theorem solBody_of_inum_zero (dfun : ℝ → F) (s : SolState) (h : ¬ 0 < s.inum) :
    solBody dfun s =
      ⟨s.incls, s.diffs, (cntPos s.diffs : ℤ) - 1, -(cntNeg s.diffs : ℤ),
        some (F.fin (pyGet s.incls ((cntPos s.diffs : ℤ) - 1))),
        F.absF (dfun (pyGet s.incls ((cntPos s.diffs : ℤ) - 1))), s.inum + 1⟩ := by
  simp only [solBody, if_neg h]

theorem solBody_of_inum_pos (dfun : ℝ → F) (s : SolState) (h : 0 < s.inum) :
    solBody dfun s =
      ⟨linspace (pyGet s.incls s.idxPos) (pyGet s.incls s.idxNeg),
        (linspace (pyGet s.incls s.idxPos) (pyGet s.incls s.idxNeg)).map dfun,
        (cntPos ((linspace (pyGet s.incls s.idxPos)
          (pyGet s.incls s.idxNeg)).map dfun) : ℤ) - 1,
        -(cntNeg ((linspace (pyGet s.incls s.idxPos)
          (pyGet s.incls s.idxNeg)).map dfun) : ℤ),
        some (F.fin (pyGet (linspace (pyGet s.incls s.idxPos)
          (pyGet s.incls s.idxNeg))
          ((cntPos ((linspace (pyGet s.incls s.idxPos)
            (pyGet s.incls s.idxNeg)).map dfun) : ℤ) - 1))),
        F.absF (dfun (pyGet (linspace (pyGet s.incls s.idxPos)
          (pyGet s.incls s.idxNeg))
          ((cntPos ((linspace (pyGet s.incls s.idxPos)
            (pyGet s.incls s.idxNeg)).map dfun) : ℤ) - 1))),
        s.inum + 1⟩ := by
  simp only [solBody, if_pos h]

theorem cntPos13 :
    cntPos (incls0.map (diff_radii_ratios (1 / 3) (π / 2) 0)) = 6 := by
  rw [incls0_eq]
  simp only [List.map, cntPos]
  rw [if_pos (d13_pos (le_refl 0) (by positivity)),
    if_pos (d13_pos (by positivity) (by linarith [pi_pos])),
    if_pos (d13_pos (by positivity) (by linarith [pi_pos])),
    if_pos (d13_pos (by positivity) (by linarith [pi_pos])),
    if_pos (d13_pos (by positivity) (by linarith [pi_pos])),
    if_pos (d13_pos (by positivity) (by linarith [pi_pos])),
    if_neg (d13_notPos (le_refl _) (by linarith [pi_pos])),
    if_neg (d13_notPos (by linarith [pi_pos]) (by linarith [pi_pos])),
    if_neg (d13_notPos (by linarith [pi_pos]) (by linarith [pi_pos])),
    if_neg (d13_notPos (by linarith [pi_pos]) (le_refl _))]

theorem cntNeg13 :
    cntNeg (incls0.map (diff_radii_ratios (1 / 3) (π / 2) 0)) = 3 := by
  rw [incls0_eq]
  simp only [List.map, cntNeg]
  rw [if_neg (d13_notNeg (le_refl 0) (by positivity)),
    if_neg (d13_notNeg (by positivity) (by linarith [pi_pos])),
    if_neg (d13_notNeg (by positivity) (by linarith [pi_pos])),
    if_neg (d13_notNeg (by positivity) (by linarith [pi_pos])),
    if_neg (d13_notNeg (by positivity) (by linarith [pi_pos])),
    if_neg (d13_notNeg (by positivity) (by linarith [pi_pos])),
    if_neg (d13_notNeg (by positivity) (le_refl _)),
    if_pos (d13_neg (by linarith [pi_pos]) (by linarith [pi_pos])),
    if_pos (d13_neg (by linarith [pi_pos]) (by linarith [pi_pos])),
    if_pos (d13_neg (by linarith [pi_pos]) (le_refl _))]

theorem d13_at_zero : diff_radii_ratios (1 / 3) (π / 2) 0 0 = F.fin (1 / 3) := by
  rw [diff_pi2_zero _ _ (by rw [Real.cos_zero]; norm_num)]
  rw [Real.cos_zero]
  norm_num

theorem d13_at_pi2 :
    diff_radii_ratios (1 / 3) (π / 2) 0 (π / 2) = F.fin (-(2 / 3)) := by
  rw [diff_pi2_zero _ _ (by rw [Real.cos_pi_div_two])]
  rw [Real.cos_pi_div_two]
  norm_num

theorem head13 :
    pyGetF (incls0.map (diff_radii_ratios (1 / 3) (π / 2) 0)) 0 =
      diff_radii_ratios (1 / 3) (π / 2) 0 0 := by
  rw [incls0_eq]
  rfl

theorem last13 :
    pyGetF (incls0.map (diff_radii_ratios (1 / 3) (π / 2) 0)) (-1) =
      diff_radii_ratios (1 / 3) (π / 2) 0 (π / 2) := by
  rw [incls0_eq]
  rfl

theorem bracket13 :
    F.ltP (F.fin 0) (pyGetF (incls0.map (diff_radii_ratios (1 / 3) (π / 2) 0)) 0) ∧
    F.ltP (pyGetF (incls0.map (diff_radii_ratios (1 / 3) (π / 2) 0)) (-1))
      (F.fin 0) := by
  rw [head13, last13, d13_at_zero, d13_at_pi2]
  constructor <;> simp only [F.ltP_fin_fin] <;> norm_num

theorem s0itol13 :
    (initState (diff_radii_ratios (1 / 3) (π / 2) 0)).itol = F.fin 1 := by
  show F.sub (pyGetF (incls0.map (diff_radii_ratios (1 / 3) (π / 2) 0)) 0)
    (pyGetF (incls0.map (diff_radii_ratios (1 / 3) (π / 2) 0)) (-1)) = F.fin 1
  rw [head13, last13, d13_at_zero, d13_at_pi2, F.sub_fin_fin]
  norm_num

theorem cos5_half : 1 / 2 < Real.cos (5 * π / 18) :=
  cos_gt_half (by positivity) (by linarith [pi_pos])

theorem cos5_nonneg : 0 ≤ Real.cos (5 * π / 18) := by linarith [cos5_half]

theorem v5_pos :
    0 < 1 / 3 - (1 - Real.cos (5 * π / 18)) / (1 + Real.cos (5 * π / 18)) := by
  have := g_lt_third cos5_half
  linarith

/-- The loop state after the first (and only non-resampling) round on
input `radii_ratio_lt = 1/3`, `phase_orb_ext = π/2`, `phase_orb_int = 0`. -/
def s13one : SolState :=
  ⟨incls0, incls0.map (diff_radii_ratios (1 / 3) (π / 2) 0), 5, -3,
    some (F.fin (5 * π / 18)),
    F.fin (1 / 3 - (1 - Real.cos (5 * π / 18)) / (1 + Real.cos (5 * π / 18))), 1⟩

theorem pyGet_incls0_five : pyGet incls0 5 = 5 * π / 18 := by
  rw [incls0_eq]
  rfl

theorem run13_s1 :
    solBody (diff_radii_ratios (1 / 3) (π / 2) 0)
      (initState (diff_radii_ratios (1 / 3) (π / 2) 0)) = s13one := by
  rw [solBody_of_inum_zero _ _ (by rw [initState_inum]; norm_num)]
  rw [initState_incls, initState_diffs, initState_inum, cntPos13, cntNeg13]
  push_cast
  rw [pyGet_incls0_five]
  unfold s13one
  rw [diff_pi2_zero _ _ cos5_nonneg, F.absF_fin, abs_of_pos v5_pos]

theorem s13one_itol_pos : F.ltP (F.fin 0) s13one.itol := by
  show F.ltP (F.fin 0) (F.fin _)
  simp only [F.ltP_fin_fin]
  exact v5_pos

theorem loop13_zero_one :
    solLoop (diff_radii_ratios (1 / 3) (π / 2) 0) 0 1
      (initState (diff_radii_ratios (1 / 3) (π / 2) 0)) = s13one := by
  rw [solLoop_step _ _ _ _
    ⟨by rw [s0itol13]; simp only [F.ltP_fin_fin]; norm_num,
      by rw [initState_inum]; norm_num⟩]
  rw [run13_s1]
  exact solLoop_exit _ _ _ _ (fun h => by
    have h2 := h.2
    have : s13one.inum = 1 := rfl
    omega)

/-! ## Witnesses for C3, C6, C7 on the same input family -/

/-- Witness for C3: with `tol = 0` and `maxiter = 1`, the `(1/3, π/2, 0)`
run exhausts its single round with `itol` still positive and returns NaN
plus the non-convergence diagnostic. -/
theorem C3_witness :
    calc_incl_from_radii_ratios_phase_incl (1 / 3) (π / 2) 0 0 1 =
      .ok (F.nan, [Warn.nonConv (1 / 3) (π / 2) 0 0]) :=
  C3_exhausted_maxiter_warns_nonconvergence (1 / 3) (π / 2) 0 0 1
    (monoCheck_pi2_zero (1 / 3)) bracket13
    (by rw [loop13_zero_one]; exact s13one_itol_pos)
    (by rw [loop13_zero_one]; norm_num [s13one])

/-- Counterexample to C6 as stated: with `maxiter = 0` the bracketed input
`(1/3, π/2, 0)` with `tol = 2` (initial span `1 ≤ tol`) neither returns the
unrefined initial-sample estimate nor the NoSolution sentinel: the read of
the unassigned `incl` local raises. -/
theorem C6_counterexample :
    calc_incl_from_radii_ratios_phase_incl (1 / 3) (π / 2) 0 2 0 =
      .error .unboundLocal ∧
    ¬ returnsValue (calc_incl_from_radii_ratios_phase_incl
      (1 / 3) (π / 2) 0 2 0) := by
  have h := run_unbound (1 / 3) (π / 2) 0 2 0 (monoCheck_pi2_zero (1 / 3))
    bracket13
    (by rw [s0itol13]; simp only [F.ltP_fin_fin]; norm_num)
  exact ⟨h, fun ⟨r, hr⟩ => by rw [h] at hr; exact Except.noConfusion hr⟩

/-- Witness for C7: the bracketed input `(1/3, π/2, 0)` with `tol = 2`
(initial span `1`) raises the unbound-local error. -/
theorem C7_witness :
    calc_incl_from_radii_ratios_phase_incl (1 / 3) (π / 2) 0 2 10 =
      .error .unboundLocal ∧
    ¬ returnsValue (calc_incl_from_radii_ratios_phase_incl
      (1 / 3) (π / 2) 0 2 10) :=
  C7_small_initial_span_reads_unbound_local (1 / 3) (π / 2) 0 2 10
    (monoCheck_pi2_zero (1 / 3)) bracket13
    (by rw [s0itol13]; simp only [F.ltP_fin_fin]; norm_num)

/-! ## The degenerate inputs for C2 and C5 -/

theorem diff_2pp (incl : ℝ) :
    diff_radii_ratios 2 (π / 2) (π / 2) incl = F.fin 2 := by
  unfold diff_radii_ratios radii_ratio_rad calc_radii_sep_from_seps
  rw [sep_proj_phase_pi_div_two]
  unfold calc_radii_ratio_from_rads
  rw [if_neg (show ((1:ℝ) + 1) / 2 ≠ 0 by norm_num)]
  show F.fin (2 - (1 - 1) / 2 / ((1 + 1) / 2)) = F.fin 2
  norm_num

theorem mono_2pp : monoCheck (incls0.map (diff_radii_ratios 2 (π / 2) (π / 2))) := by
  rw [incls0_eq]
  intro d hd
  simp only [List.map, diff_2pp, npDiff, List.tail, List.zipWith,
    F.sub_fin_fin, List.mem_cons, List.not_mem_nil, or_false] at hd
  rcases hd with h | h | h | h | h | h | h | h | h <;> rw [h] <;>
    simp only [F.leP_fin_fin] <;> norm_num

theorem nb_2pp :
    ¬ (F.ltP (F.fin 0) (pyGetF (incls0.map (diff_radii_ratios 2 (π / 2) (π / 2))) 0) ∧
      F.ltP (pyGetF (incls0.map (diff_radii_ratios 2 (π / 2) (π / 2))) (-1))
        (F.fin 0)) := by
  intro hc
  have hl : pyGetF (incls0.map (diff_radii_ratios 2 (π / 2) (π / 2))) (-1) =
      diff_radii_ratios 2 (π / 2) (π / 2) (π / 2) := by
    rw [incls0_eq]
    rfl
  have h2 := hc.2
  rw [hl, diff_2pp] at h2
  simp only [F.ltP_fin_fin] at h2
  norm_num at h2

/-- Witness for C2 amended: the degenerate input
`phase_orb_ext = phase_orb_int = π/2` (with `sin` non-zero) and
`radii_ratio_lt = 2` passes the monotonicity check, shows no sign change,
and returns NaN with the no-solution diagnostic. -/
theorem C2_witness :
    calc_incl_from_radii_ratios_phase_incl 2 (π / 2) (π / 2) (1 / 10000) 10 =
      .ok (F.nan, [Warn.noSoln 2 (π / 2) (π / 2) (1 / 10000)]) :=
  C2_no_sign_change_returns_no_solution 2 (π / 2) (π / 2) (1 / 10000) 10
    mono_2pp nb_2pp

theorem rrr_pi6_pi2 (incl : ℝ) :
    radii_ratio_rad (π / 6) (π / 2) incl =
      Except.ok ((calc_sep_proj_from_incl_phase incl (π / 6) - 1) /
        (calc_sep_proj_from_incl_phase incl (π / 6) + 1)) := by
  have hs : 0 ≤ calc_sep_proj_from_incl_phase incl (π / 6) := Real.sqrt_nonneg _
  unfold radii_ratio_rad calc_radii_sep_from_seps
  rw [sep_proj_phase_pi_div_two]
  unfold calc_radii_ratio_from_rads
  have hne : (calc_sep_proj_from_incl_phase incl (π / 6) + 1) / 2 ≠ 0 :=
    ne_of_gt (by linarith)
  rw [if_neg hne]
  congr 1
  show (calc_sep_proj_from_incl_phase incl (π / 6) - 1) / 2 /
      ((calc_sep_proj_from_incl_phase incl (π / 6) + 1) / 2) = _
  have h2 : calc_sep_proj_from_incl_phase incl (π / 6) + 1 ≠ 0 :=
    ne_of_gt (by linarith)
  field_simp

theorem diff_neg1_eval (x : ℝ) :
    diff_radii_ratios (-1) (π / 6) (π / 2) x =
      F.fin (-1 - (calc_sep_proj_from_incl_phase x (π / 6) - 1) /
        (calc_sep_proj_from_incl_phase x (π / 6) + 1)) := by
  unfold diff_radii_ratios
  rw [rrr_pi6_pi2]

theorem sep16_at_zero : calc_sep_proj_from_incl_phase 0 (π / 6) = 1 := by
  unfold calc_sep_proj_from_incl_phase
  rw [Real.cos_zero, Real.sin_zero]
  rw [show (1:ℝ) ^ 2 + Real.sin (π / 6) ^ 2 * 0 ^ 2 = 1 by ring]
  exact Real.sqrt_one

theorem sep16_lt_one : calc_sep_proj_from_incl_phase (π / 18) (π / 6) < 1 := by
  unfold calc_sep_proj_from_incl_phase
  rw [Real.sin_pi_div_six]
  have hsin : 0 < Real.sin (π / 18) :=
    Real.sin_pos_of_pos_of_lt_pi (by positivity) (by linarith [pi_pos])
  have harg : Real.cos (π / 18) ^ 2 + (1 / 2) ^ 2 * Real.sin (π / 18) ^ 2 < 1 := by
    nlinarith [Real.sin_sq_add_cos_sq (π / 18)]
  calc Real.sqrt (Real.cos (π / 18) ^ 2 + (1 / 2) ^ 2 * Real.sin (π / 18) ^ 2)
      < Real.sqrt 1 := Real.sqrt_lt_sqrt (by positivity) harg
    _ = 1 := Real.sqrt_one

theorem diff_neg1_at_zero :
    diff_radii_ratios (-1) (π / 6) (π / 2) 0 = F.fin (-1) := by
  rw [diff_neg1_eval, sep16_at_zero]
  norm_num

/-- At phases `(π/6, π/2)` the internal separation is constantly `1` while
the external one strictly decreases from `1`, so the sampled diff sequence
for any target ratio is strictly increasing: already the first consecutive
difference is positive and the non-increasing assertion fails. -/
theorem notMono_neg1 :
    ¬ monoCheck (incls0.map (diff_radii_ratios (-1) (π / 6) (π / 2))) := by
  intro hm
  have hmem : F.sub (diff_radii_ratios (-1) (π / 6) (π / 2) (π / 18))
      (diff_radii_ratios (-1) (π / 6) (π / 2) 0) ∈
      npDiff (incls0.map (diff_radii_ratios (-1) (π / 6) (π / 2))) := by
    rw [incls0_eq]
    simp only [List.map, npDiff, List.tail, List.zipWith, List.mem_cons]
    exact Or.inl trivial
  have hle := hm _ hmem
  rw [diff_neg1_eval (π / 18), diff_neg1_at_zero, F.sub_fin_fin] at hle
  simp only [F.leP_fin_fin] at hle
  have hs0 : 0 ≤ calc_sep_proj_from_incl_phase (π / 18) (π / 6) :=
    Real.sqrt_nonneg _
  have hlt := sep16_lt_one
  have hneg : (calc_sep_proj_from_incl_phase (π / 18) (π / 6) - 1) /
      (calc_sep_proj_from_incl_phase (π / 18) (π / 6) + 1) < 0 :=
    div_neg_of_neg_of_pos (by linarith) (by linarith)
  linarith

theorem diff_neg1_first :
    F.leP (pyGetF (incls0.map (diff_radii_ratios (-1) (π / 6) (π / 2))) 0)
      (F.fin 0) := by
  have h0 : pyGetF (incls0.map (diff_radii_ratios (-1) (π / 6) (π / 2))) 0 =
      diff_radii_ratios (-1) (π / 6) (π / 2) 0 := by
    rw [incls0_eq]
    rfl
  rw [h0, diff_neg1_at_zero]
  simp only [F.leP_fin_fin]
  norm_num

/-- Counterexample to C2 as stated: on `radii_ratio_lt = -1`,
`phase_orb_ext = π/6`, `phase_orb_int = π/2` the first sampled diff is
`-1 ≤ 0`, so the input shows no sign change in the claim's sense; yet the
sampled diff sequence is strictly increasing, the non-increasing assertion
(which the code runs before the sign-change test) fails, and the call
raises `AssertionError` instead of returning the NoSolution sentinel. -/
theorem C2_counterexample :
    F.leP (pyGetF (incls0.map (diff_radii_ratios (-1) (π / 6) (π / 2))) 0)
      (F.fin 0) ∧
    calc_incl_from_radii_ratios_phase_incl (-1) (π / 6) (π / 2) (1 / 10000) 10 =
      .error .assertionError ∧
    ¬ returnsValue (calc_incl_from_radii_ratios_phase_incl
      (-1) (π / 6) (π / 2) (1 / 10000) 10) := by
  have h := run_assert (-1) (π / 6) (π / 2) (1 / 10000) 10 notMono_neg1
  exact ⟨diff_neg1_first, h,
    fun ⟨r, hr⟩ => by rw [h] at hr; exact Except.noConfusion hr⟩

/-- Witness for C5: at phases `(π/6, π/2)` the sampled diff sequence is
strictly increasing, the non-increasing check fails, and the call raises. -/
theorem C5_witness :
    calc_incl_from_radii_ratios_phase_incl (-1) (π / 6) (π / 2) (1 / 100) 5 =
      .error .assertionError ∧
    ¬ returnsValue (calc_incl_from_radii_ratios_phase_incl
      (-1) (π / 6) (π / 2) (1 / 100) 5) :=
  C5_non_monotone_raises_assertion (-1) (π / 6) (π / 2) (1 / 100) 5 notMono_neg1

/-! ## List and count lemmas for the zoom-loop invariant -/

theorem F.pos_mono {a b : F} (hb : F.ltP (F.fin 0) b) (hba : F.leP b a) :
    F.ltP (F.fin 0) a := by
  cases a <;> cases b <;> simp_all [F.ltP, F.leP]
  linarith

theorem F.neg_mono {a b : F} (hb : F.ltP b (F.fin 0)) (hab : F.leP a b) :
    F.ltP a (F.fin 0) := by
  cases a <;> cases b <;> simp_all [F.ltP, F.leP]
  linarith

theorem sub_leP_zero {a b : F} (hle : F.leP a b) (ha : ∃ v, a = F.fin v)
    (hb : ∃ v, b = F.fin v) : F.leP (F.sub a b) (F.fin 0) := by
  obtain ⟨va, rfl⟩ := ha
  obtain ⟨vb, rfl⟩ := hb
  simp only [F.leP_fin_fin] at hle
  rw [F.sub_fin_fin]
  simp only [F.leP_fin_fin]
  linarith

theorem getD_of_mem {α : Type} (dflt : α) {l : List α} {x : α} (hx : x ∈ l) :
    ∃ i, i < l.length ∧ l.getD i dflt = x := by
  induction l with
  | nil => simp at hx
  | cons d t ih =>
    rcases List.mem_cons.mp hx with rfl | hx2
    · exact ⟨0, by simp, rfl⟩
    · obtain ⟨i, hi, hget⟩ := ih hx2
      exact ⟨i + 1, by simp only [List.length_cons]; omega, by simpa using hget⟩

theorem getD_mem {α : Type} (dflt : α) {l : List α} {i : ℕ} (hi : i < l.length) :
    l.getD i dflt ∈ l := by
  induction l generalizing i with
  | nil => simp at hi
  | cons d t ih =>
    cases i with
    | zero => simp
    | succ k =>
      simp only [List.getD_cons_succ]
      exact List.mem_cons_of_mem _
        (ih (by simp only [List.length_cons] at hi; omega))

theorem getD_map {α β : Type} (dflt : β) (f : α → β) (dflt2 : α) (l : List α)
    {i : ℕ} (hi : i < l.length) : (l.map f).getD i dflt = f (l.getD i dflt2) := by
  induction l generalizing i with
  | nil => simp at hi
  | cons d t ih =>
    cases i with
    | zero => simp
    | succ k =>
      simp only [List.map, List.getD_cons_succ]
      exact ih (by simp only [List.length_cons] at hi; omega)

theorem getD_lt_getD {l : List ℝ} (hc : List.Chain' (· < ·) l)
    {i j : ℕ} (hij : i < j) (hj : j < l.length) : l.getD i 0 < l.getD j 0 := by
  have hp := List.chain'_iff_pairwise.mp hc
  rw [List.pairwise_iff_get] at hp
  rw [List.getD_eq_get l 0 (lt_trans hij hj), List.getD_eq_get l 0 hj]
  exact hp _ _ hij

theorem getD_le_getD {l : List ℝ} (hc : List.Chain' (· < ·) l)
    {i j : ℕ} (hij : i ≤ j) (hj : j < l.length) : l.getD i 0 ≤ l.getD j 0 := by
  rcases lt_or_eq_of_le hij with h | h
  · exact le_of_lt (getD_lt_getD hc h hj)
  · rw [h]

theorem cntPos_le_length (l : List F) : cntPos l ≤ l.length := by
  induction l with
  | nil => simp [cntPos]
  | cons d t ih =>
    rw [cntPos, List.length_cons]
    split <;> omega

theorem cntNeg_le_length (l : List F) : cntNeg l ≤ l.length := by
  induction l with
  | nil => simp [cntNeg]
  | cons d t ih =>
    rw [cntNeg, List.length_cons]
    split <;> omega

theorem cntPos_eq_zero (l : List F) (h : ∀ d ∈ l, ¬ F.ltP (F.fin 0) d) :
    cntPos l = 0 := by
  induction l with
  | nil => rfl
  | cons d t ih =>
    rw [cntPos, if_neg (h d (List.mem_cons_self d t)),
      ih (fun x hx => h x (List.mem_cons_of_mem d hx))]

theorem cntNeg_eq_length (l : List F) (h : ∀ d ∈ l, F.ltP d (F.fin 0)) :
    cntNeg l = l.length := by
  induction l with
  | nil => rfl
  | cons d t ih =>
    rw [cntNeg, if_pos (h d (List.mem_cons_self d t)),
      ih (fun x hx => h x (List.mem_cons_of_mem d hx)), List.length_cons]
    omega

theorem one_le_cntPos {l : List F} {d : F} (hd : d ∈ l)
    (h : F.ltP (F.fin 0) d) : 1 ≤ cntPos l := by
  induction l with
  | nil => simp at hd
  | cons a t ih =>
    rcases List.mem_cons.mp hd with rfl | hd2
    · rw [cntPos, if_pos h]
      omega
    · rw [cntPos]
      have := ih hd2
      split <;> omega

theorem one_le_cntNeg {l : List F} {d : F} (hd : d ∈ l)
    (h : F.ltP d (F.fin 0)) : 1 ≤ cntNeg l := by
  induction l with
  | nil => simp at hd
  | cons a t ih =>
    rcases List.mem_cons.mp hd with rfl | hd2
    · rw [cntNeg, if_pos h]
      omega
    · rw [cntNeg]
      have := ih hd2
      split <;> omega

/-- In a list whose strictly positive entries are downward closed along the
index order, an entry is positive exactly when its index is below the
positive count. -/
theorem pos_iff_lt_cntPos :
    ∀ (l : List F),
      (∀ i j, i ≤ j → j < l.length →
        F.ltP (F.fin 0) (l.getD j F.nan) → F.ltP (F.fin 0) (l.getD i F.nan)) →
      ∀ i, i < l.length →
        (F.ltP (F.fin 0) (l.getD i F.nan) ↔ i < cntPos l) := by
  intro l
  induction l with
  | nil =>
    intro _ i hi
    simp at hi
  | cons d t ih =>
    intro hdc i hi
    by_cases hd : F.ltP (F.fin 0) d
    · cases i with
      | zero =>
        simp only [List.getD_cons_zero]
        rw [cntPos, if_pos hd]
        exact ⟨fun _ => by omega, fun _ => hd⟩
      | succ k =>
        simp only [List.getD_cons_succ]
        rw [cntPos, if_pos hd]
        have hk : k < t.length := by
          simp only [List.length_cons] at hi
          omega
        have hdct : ∀ i j, i ≤ j → j < t.length →
            F.ltP (F.fin 0) (t.getD j F.nan) → F.ltP (F.fin 0) (t.getD i F.nan) := by
          intro i j hij hj hp
          have := hdc (i + 1) (j + 1) (by omega)
            (by simp only [List.length_cons]; omega) (by simpa using hp)
          simpa using this
        rw [ih hdct k hk]
        omega
    · have hwhole : ∀ j, j < (d :: t).length →
          ¬ F.ltP (F.fin 0) ((d :: t).getD j F.nan) := by
        intro j hj hp
        exact hd (hdc 0 j (by omega) hj hp)
      have hz : cntPos (d :: t) = 0 := by
        rw [cntPos, if_neg hd]
        rw [cntPos_eq_zero t (fun x hx hp => ?_)]
        obtain ⟨n, hn, hget⟩ := getD_of_mem F.nan hx
        exact hwhole (n + 1) (by simp only [List.length_cons]; omega)
          (by simp only [List.getD_cons_succ]; rw [hget]; exact hp)
      rw [hz]
      simp only [Nat.not_lt_zero, iff_false]
      exact hwhole i hi

/-- In a list whose strictly negative entries are upward closed along the
index order, an entry is negative exactly when its index is at least
`length - cntNeg`. -/
theorem neg_iff_cnt_le :
    ∀ (l : List F),
      (∀ i j, i ≤ j → j < l.length →
        F.ltP (l.getD i F.nan) (F.fin 0) → F.ltP (l.getD j F.nan) (F.fin 0)) →
      ∀ i, i < l.length →
        (F.ltP (l.getD i F.nan) (F.fin 0) ↔ l.length - cntNeg l ≤ i) := by
  intro l
  induction l with
  | nil =>
    intro _ i hi
    simp at hi
  | cons d t ih =>
    intro huc i hi
    by_cases hd : F.ltP d (F.fin 0)
    · have hall : ∀ j, j < (d :: t).length →
          F.ltP ((d :: t).getD j F.nan) (F.fin 0) := by
        intro j hj
        exact huc 0 j (by omega) hj (by simpa using hd)
      have hlen : cntNeg (d :: t) = (d :: t).length :=
        cntNeg_eq_length _ (fun x hx => by
          obtain ⟨n, hn, hget⟩ := getD_of_mem F.nan hx
          have := hall n hn
          rwa [hget] at this)
      rw [hlen]
      simp only [Nat.sub_self]
      exact ⟨fun _ => by omega, fun _ => hall i hi⟩
    · have hcz : cntNeg (d :: t) = cntNeg t := by
        rw [cntNeg, if_neg hd]
        omega
      have hct := cntNeg_le_length t
      cases i with
      | zero =>
        simp only [List.getD_cons_zero]
        rw [hcz]
        simp only [List.length_cons]
        exact ⟨fun hp => absurd hp hd, fun hle => by omega⟩
      | succ k =>
        simp only [List.getD_cons_succ]
        rw [hcz]
        have hk : k < t.length := by
          simp only [List.length_cons] at hi
          omega
        have huct : ∀ i j, i ≤ j → j < t.length →
            F.ltP (t.getD i F.nan) (F.fin 0) → F.ltP (t.getD j F.nan) (F.fin 0) := by
          intro i j hij hj hp
          have := huc (i + 1) (j + 1) (by omega)
            (by simp only [List.length_cons]; omega) (by simpa using hp)
          simpa using this
        rw [ih huct k hk, List.length_cons]
        omega

/-! ## linspace and initial-grid facts -/

theorem linspace_eq (a b : ℝ) :
    linspace a b = [a, a + (b - a) / 9, a + 2 * ((b - a) / 9),
      a + 3 * ((b - a) / 9), a + 4 * ((b - a) / 9), a + 5 * ((b - a) / 9),
      a + 6 * ((b - a) / 9), a + 7 * ((b - a) / 9), a + 8 * ((b - a) / 9), b] := by
  unfold linspace
  rw [show List.range 10 = [0, 1, 2, 3, 4, 5, 6, 7, 8, 9] from rfl]
  simp only [List.map]
  norm_num
  ring

theorem linspace_length (a b : ℝ) : (linspace a b).length = 10 := by
  rw [linspace_eq]
  rfl

theorem linspace_chain {a b : ℝ} (h : a < b) :
    List.Chain' (· < ·) (linspace a b) := by
  have hs : 0 < (b - a) / 9 := by
    apply div_pos (by linarith) (by norm_num)
  have h9 : 9 * ((b - a) / 9) = b - a := by ring
  rw [linspace_eq]
  simp only [List.chain'_cons, List.chain'_singleton, and_true]
  refine ⟨?_, ?_, ?_, ?_, ?_, ?_, ?_, ?_, ?_⟩ <;> linarith

theorem linspace_bounds {a b : ℝ} (h : a ≤ b) :
    ∀ x ∈ linspace a b, a ≤ x ∧ x ≤ b := by
  have hs : 0 ≤ (b - a) / 9 := div_nonneg (by linarith) (by norm_num)
  have h9 : 9 * ((b - a) / 9) = b - a := by ring
  rw [linspace_eq]
  intro x hx
  simp only [List.mem_cons, List.not_mem_nil, or_false] at hx
  rcases hx with rfl | rfl | rfl | rfl | rfl | rfl | rfl | rfl | rfl | rfl <;>
    constructor <;> linarith

theorem left_mem_linspace (a b : ℝ) : a ∈ linspace a b := by
  rw [linspace_eq]
  exact List.mem_cons_self a _

theorem right_mem_linspace (a b : ℝ) : b ∈ linspace a b := by
  rw [linspace_eq]
  simp

theorem incls0_length : incls0.length = 10 := by
  rw [incls0_eq]
  rfl

theorem incls0_chain : List.Chain' (· < ·) incls0 := by
  rw [incls0_eq]
  simp only [List.chain'_cons, List.chain'_singleton, and_true]
  refine ⟨?_, ?_, ?_, ?_, ?_, ?_, ?_, ?_, ?_⟩ <;> linarith [pi_pos]

theorem incls0_bounds : ∀ x ∈ incls0, 0 ≤ x ∧ x ≤ π / 2 := by
  rw [incls0_eq]
  intro x hx
  simp only [List.mem_cons, List.not_mem_nil, or_false] at hx
  rcases hx with rfl | rfl | rfl | rfl | rfl | rfl | rfl | rfl | rfl | rfl <;>
    constructor <;> linarith [pi_pos]

theorem zero_mem_incls0 : (0 : ℝ) ∈ incls0 := by
  rw [incls0_eq]
  exact List.mem_cons_self 0 _

theorem pi2_mem_incls0 : π / 2 ∈ incls0 := by
  rw [incls0_eq]
  simp

theorem pyGetF_map_incls0_zero (dfun : ℝ → F) :
    pyGetF (incls0.map dfun) 0 = dfun 0 := by
  rw [incls0_eq]
  rfl

theorem pyGetF_map_incls0_last (dfun : ℝ → F) :
    pyGetF (incls0.map dfun) (-1) = dfun (π / 2) := by
  rw [incls0_eq]
  rfl

/-! ## The bracket endpoints: greatest positive and least negative samples -/

theorem F.not_pos_neg {d : F} (h1 : F.ltP (F.fin 0) d)
    (h2 : F.ltP d (F.fin 0)) : False := by
  cases d with
  | fin x =>
    simp only [F.ltP_fin_fin] at h1 h2
    linarith
  | inf p =>
    simp only [F.ltP] at h1 h2
    rw [h1] at h2
    exact Bool.noConfusion h2
  | nan => exact h1

/-- On a strictly sorted 10-sample grid inside `[0, π/2]` with an antitone
diff function and at least one positive and one negative sampled diff, the
solver's `incls[idx_diff_least_pos]` is the greatest sample with positive
diff, `incls[idx_diff_least_neg]` is the least sample with negative diff,
and the former is strictly below the latter. -/
theorem bracket_endpoints (dfun : ℝ → F) (incls : List ℝ)
    (hlen : incls.length = 10)
    (hch : List.Chain' (· < ·) incls)
    (hbd : ∀ x ∈ incls, 0 ≤ x ∧ x ≤ π / 2)
    (hanti : ∀ x y, 0 ≤ x → x ≤ y → y ≤ π / 2 → F.leP (dfun y) (dfun x))
    (hcp : 1 ≤ cntPos (incls.map dfun))
    (hcn : 1 ≤ cntNeg (incls.map dfun)) :
    pyGet incls ((cntPos (incls.map dfun) : ℤ) - 1) ∈ incls ∧
    pyGet incls (-(cntNeg (incls.map dfun) : ℤ)) ∈ incls ∧
    F.ltP (F.fin 0) (dfun (pyGet incls ((cntPos (incls.map dfun) : ℤ) - 1))) ∧
    F.ltP (dfun (pyGet incls (-(cntNeg (incls.map dfun) : ℤ)))) (F.fin 0) ∧
    pyGet incls ((cntPos (incls.map dfun) : ℤ) - 1) <
      pyGet incls (-(cntNeg (incls.map dfun) : ℤ)) ∧
    (∀ y ∈ incls, F.ltP (F.fin 0) (dfun y) →
      y ≤ pyGet incls ((cntPos (incls.map dfun) : ℤ) - 1)) ∧
    (∀ y ∈ incls, F.ltP (dfun y) (F.fin 0) →
      pyGet incls (-(cntNeg (incls.map dfun) : ℤ)) ≤ y) := by
  have hlenl : (incls.map dfun).length = 10 := by
    rw [List.length_map, hlen]
  have hcp10 : cntPos (incls.map dfun) ≤ 10 := by
    have := cntPos_le_length (incls.map dfun)
    omega
  have hcn10 : cntNeg (incls.map dfun) ≤ 10 := by
    have := cntNeg_le_length (incls.map dfun)
    omega
  have hpyP : pyGet incls ((cntPos (incls.map dfun) : ℤ) - 1) =
      incls.getD (cntPos (incls.map dfun) - 1) 0 := by
    unfold pyGet
    rw [if_neg (by omega : ¬ ((cntPos (incls.map dfun) : ℤ) - 1 < 0))]
    congr 1
    omega
  have hpyN : pyGet incls (-(cntNeg (incls.map dfun) : ℤ)) =
      incls.getD (10 - cntNeg (incls.map dfun)) 0 := by
    unfold pyGet
    rw [if_pos (by omega : -(cntNeg (incls.map dfun) : ℤ) < 0), hlen]
    congr 1
    omega
  have hdc : ∀ i j, i ≤ j → j < (incls.map dfun).length →
      F.ltP (F.fin 0) ((incls.map dfun).getD j F.nan) →
      F.ltP (F.fin 0) ((incls.map dfun).getD i F.nan) := by
    intro i j hij hj hp
    have hjl : j < incls.length := by
      rw [List.length_map] at hj
      exact hj
    have hil : i < incls.length := by omega
    rw [getD_map F.nan dfun 0 incls hjl] at hp
    rw [getD_map F.nan dfun 0 incls hil]
    exact F.pos_mono hp (hanti _ _ (hbd _ (getD_mem 0 hil)).1
      (getD_le_getD hch hij hjl) (hbd _ (getD_mem 0 hjl)).2)
  have huc : ∀ i j, i ≤ j → j < (incls.map dfun).length →
      F.ltP ((incls.map dfun).getD i F.nan) (F.fin 0) →
      F.ltP ((incls.map dfun).getD j F.nan) (F.fin 0) := by
    intro i j hij hj hp
    have hjl : j < incls.length := by
      rw [List.length_map] at hj
      exact hj
    have hil : i < incls.length := by omega
    rw [getD_map F.nan dfun 0 incls hil] at hp
    rw [getD_map F.nan dfun 0 incls hjl]
    exact F.neg_mono hp (hanti _ _ (hbd _ (getD_mem 0 hil)).1
      (getD_le_getD hch hij hjl) (hbd _ (getD_mem 0 hjl)).2)
  have hcharP := pos_iff_lt_cntPos (incls.map dfun) hdc
  have hcharN := neg_iff_cnt_le (incls.map dfun) huc
  have hiP : cntPos (incls.map dfun) - 1 < incls.length := by omega
  have hiN : 10 - cntNeg (incls.map dfun) < incls.length := by omega
  have hposP : F.ltP (F.fin 0) (dfun (incls.getD (cntPos (incls.map dfun) - 1) 0)) := by
    have := (hcharP (cntPos (incls.map dfun) - 1) (by omega)).mpr (by omega)
    rwa [getD_map F.nan dfun 0 incls hiP] at this
  have hnegN : F.ltP (dfun (incls.getD (10 - cntNeg (incls.map dfun)) 0)) (F.fin 0) := by
    have := (hcharN (10 - cntNeg (incls.map dfun)) (by omega)).mpr (by omega)
    rwa [getD_map F.nan dfun 0 incls hiN] at this
  have hij : cntPos (incls.map dfun) - 1 < 10 - cntNeg (incls.map dfun) := by
    by_contra hcon
    push_neg at hcon
    have hnegP : F.ltP ((incls.map dfun).getD (cntPos (incls.map dfun) - 1) F.nan)
        (F.fin 0) :=
      (hcharN (cntPos (incls.map dfun) - 1) (by omega)).mpr (by omega)
    have hposP2 : F.ltP (F.fin 0)
        ((incls.map dfun).getD (cntPos (incls.map dfun) - 1) F.nan) :=
      (hcharP (cntPos (incls.map dfun) - 1) (by omega)).mpr (by omega)
    exact F.not_pos_neg hposP2 hnegP
  refine ⟨?_, ?_, ?_, ?_, ?_, ?_, ?_⟩
  · rw [hpyP]
    exact getD_mem 0 hiP
  · rw [hpyN]
    exact getD_mem 0 hiN
  · rw [hpyP]
    exact hposP
  · rw [hpyN]
    exact hnegN
  · rw [hpyP, hpyN]
    exact getD_lt_getD hch hij hiN
  · intro y hy hp
    obtain ⟨j, hj, hget⟩ := getD_of_mem 0 hy
    have hjp : j < cntPos (incls.map dfun) := by
      apply (hcharP j (by omega)).mp
      rw [getD_map F.nan dfun 0 incls hj, hget]
      exact hp
    rw [hpyP, ← hget]
    exact getD_le_getD hch (by omega) hiP
  · intro y hy hn
    obtain ⟨j, hj, hget⟩ := getD_of_mem 0 hy
    have h2 : (incls.map dfun).length - cntNeg (incls.map dfun) ≤ j := by
      apply (hcharN j (by omega)).mp
      rw [getD_map F.nan dfun 0 incls hj, hget]
      exact hn
    have hjp : 10 - cntNeg (incls.map dfun) ≤ j := by omega
    rw [hpyN, ← hget]
    exact getD_le_getD hch hjp hj

/-! ## The zoom-loop invariant -/

/-- State invariant holding after every executed loop iteration: the diffs
are the sampled diff values of a strictly increasing 10-point grid inside
`[0, π/2]` containing at least one positive and one negative diff, the two
index counters equal the Python `idx_diff_least_pos`/`idx_diff_least_neg`
recomputed from the current diffs, and the `incl` local holds the sample at
`idx_diff_least_pos`. -/
def InvOne (dfun : ℝ → F) (s : SolState) : Prop :=
  s.diffs = s.incls.map dfun ∧
  s.incls.length = 10 ∧
  List.Chain' (· < ·) s.incls ∧
  (∀ x ∈ s.incls, 0 ≤ x ∧ x ≤ π / 2) ∧
  1 ≤ cntPos s.diffs ∧
  1 ≤ cntNeg s.diffs ∧
  s.idxPos = (cntPos s.diffs : ℤ) - 1 ∧
  s.idxNeg = -(cntNeg s.diffs : ℤ) ∧
  s.incl = some (F.fin (pyGet s.incls ((cntPos s.diffs : ℤ) - 1)))

theorem InvOne_body (dfun : ℝ → F)
    (hanti : ∀ x y, 0 ≤ x → x ≤ y → y ≤ π / 2 → F.leP (dfun y) (dfun x))
    (s : SolState) (hInv : InvOne dfun s) (hnum : 0 < s.inum) :
    InvOne dfun (solBody dfun s) := by
  obtain ⟨hmap, hlen, hch, hbd, hcp, hcn, hip, hiq, hincl⟩ := hInv
  rw [solBody_of_inum_pos dfun s hnum]
  rw [hmap] at hcp hcn
  obtain ⟨haMem, hbMem, haPos, hbNeg, hab, hGreat, hLeast⟩ :=
    bracket_endpoints dfun s.incls hlen hch hbd hanti hcp hcn
  rw [hip, hiq, hmap]
  refine ⟨rfl, linspace_length _ _, linspace_chain hab, ?_, ?_, ?_, rfl, rfl, rfl⟩
  · intro x hx
    have hx2 := linspace_bounds (le_of_lt hab) x hx
    exact ⟨le_trans (hbd _ haMem).1 hx2.1, le_trans hx2.2 (hbd _ hbMem).2⟩
  · exact one_le_cntPos (List.mem_map_of_mem dfun (left_mem_linspace _ _)) haPos
  · exact one_le_cntNeg (List.mem_map_of_mem dfun (right_mem_linspace _ _)) hbNeg

theorem InvOne_loop_aux (dfun : ℝ → F) (tol : ℝ) (maxiter : ℤ)
    (hanti : ∀ x y, 0 ≤ x → x ≤ y → y ≤ π / 2 → F.leP (dfun y) (dfun x)) :
    ∀ n (s : SolState), (maxiter - s.inum).toNat ≤ n → InvOne dfun s →
      0 < s.inum → InvOne dfun (solLoop dfun tol maxiter s) := by
  intro n
  induction n with
  | zero =>
    intro s hs hInv hnum
    rw [solLoop_exit dfun tol maxiter s (fun h => by
      have := h.2
      omega)]
    exact hInv
  | succ n ih =>
    intro s hs hInv hnum
    by_cases hc : F.ltP (F.fin tol) s.itol ∧ s.inum < maxiter
    · rw [solLoop_step dfun tol maxiter s hc]
      exact ih (solBody dfun s)
        (by simp only [solBody_inum]; have := hc.2; omega)
        (InvOne_body dfun hanti s hInv hnum)
        (by simp only [solBody_inum]; omega)
    · rw [solLoop_exit dfun tol maxiter s hc]
      exact hInv

theorem InvOne_loop (dfun : ℝ → F) (tol : ℝ) (maxiter : ℤ)
    (hanti : ∀ x y, 0 ≤ x → x ≤ y → y ≤ π / 2 → F.leP (dfun y) (dfun x))
    (s : SolState) (hInv : InvOne dfun s) (hnum : 0 < s.inum) :
    InvOne dfun (solLoop dfun tol maxiter s) :=
  InvOne_loop_aux dfun tol maxiter hanti (maxiter - s.inum).toNat s le_rfl hInv hnum

/-- Non-increasing finite sampled diffs pass the monotonicity check. -/
theorem monoCheck_of_anti (dfun : ℝ → F)
    (hfin : ∀ x, 0 ≤ x → x ≤ π / 2 → ∃ v, dfun x = F.fin v)
    (hanti : ∀ x y, 0 ≤ x → x ≤ y → y ≤ π / 2 → F.leP (dfun y) (dfun x)) :
    monoCheck (incls0.map dfun) := by
  rw [incls0_eq]
  intro d hd
  simp only [List.map, npDiff, List.tail, List.zipWith, List.mem_cons,
    List.not_mem_nil, or_false] at hd
  rcases hd with h | h | h | h | h | h | h | h | h <;> rw [h] <;>
    exact sub_leP_zero
      (hanti _ _ (by linarith [pi_pos]) (by linarith [pi_pos])
        (by linarith [pi_pos]))
      (hfin _ (by linarith [pi_pos]) (by linarith [pi_pos]))
      (hfin _ (by linarith [pi_pos]) (by linarith [pi_pos]))

/-! ## Converged runs return the greatest strictly positive sample -/

/-- The final state of the zoom loop. -/
def finalState (radii_ratio_lt phase_orb_ext phase_orb_int tol : ℝ)
    (maxiter : ℤ) : SolState :=
  solLoop (diff_radii_ratios radii_ratio_lt phase_orb_ext phase_orb_int)
    tol maxiter
    (initState (diff_radii_ratios radii_ratio_lt phase_orb_ext phase_orb_int))

/-- The solver's candidate inclination in the final state:
`incls[idx_diff_least_pos]`. -/
def inclLo (radii_ratio_lt phase_orb_ext phase_orb_int tol : ℝ)
    (maxiter : ℤ) : ℝ :=
  pyGet (finalState radii_ratio_lt phase_orb_ext phase_orb_int tol maxiter).incls
    ((cntPos (finalState radii_ratio_lt phase_orb_ext phase_orb_int
      tol maxiter).diffs : ℤ) - 1)

/-- On a bracketed input with a finite, non-increasing diff function whose
initial span exceeds `tol`, `maxiter ≥ 1`, and whose loop exits with
`itol` within `tol` (convergence), the returned inclination is the sample
`incls[idx_diff_least_pos]` of the final sample set, which is the largest
sampled inclination with *strictly positive* diff: `idx_diff_least_pos`
counts the samples with `diff > 0`. -/
theorem converged_returns_greatest_positive
    (radii_ratio_lt phase_orb_ext phase_orb_int tol : ℝ) (maxiter : ℤ)
    (hfin : ∀ x, 0 ≤ x → x ≤ π / 2 →
      ∃ v, diff_radii_ratios radii_ratio_lt phase_orb_ext phase_orb_int x = F.fin v)
    (hanti : ∀ x y, 0 ≤ x → x ≤ y → y ≤ π / 2 →
      F.leP (diff_radii_ratios radii_ratio_lt phase_orb_ext phase_orb_int y)
        (diff_radii_ratios radii_ratio_lt phase_orb_ext phase_orb_int x))
    (hb0 : F.ltP (F.fin 0)
      (diff_radii_ratios radii_ratio_lt phase_orb_ext phase_orb_int 0))
    (hb1 : F.ltP
      (diff_radii_ratios radii_ratio_lt phase_orb_ext phase_orb_int (π / 2))
      (F.fin 0))
    (hspan : F.ltP (F.fin tol)
      (initState (diff_radii_ratios radii_ratio_lt phase_orb_ext
        phase_orb_int)).itol)
    (hmax : 1 ≤ maxiter)
    (hconv : ¬ F.ltP (F.fin tol)
      (finalState radii_ratio_lt phase_orb_ext phase_orb_int tol maxiter).itol) :
    calcInclFull radii_ratio_lt phase_orb_ext phase_orb_int tol maxiter =
      .ok ⟨F.fin (inclLo radii_ratio_lt phase_orb_ext phase_orb_int tol maxiter),
        (if F.ltP (ratioAtF phase_orb_ext phase_orb_int
            (F.fin (inclLo radii_ratio_lt phase_orb_ext phase_orb_int tol
              maxiter))) (F.fin (1 / 10))
          then [Warn.plaus (ratioAtF phase_orb_ext phase_orb_int
            (F.fin (inclLo radii_ratio_lt phase_orb_ext phase_orb_int tol
              maxiter))) radii_ratio_lt]
          else []),
        finalState radii_ratio_lt phase_orb_ext phase_orb_int tol maxiter⟩ ∧
    inclLo radii_ratio_lt phase_orb_ext phase_orb_int tol maxiter ∈
      (finalState radii_ratio_lt phase_orb_ext phase_orb_int tol maxiter).incls ∧
    F.ltP (F.fin 0) (diff_radii_ratios radii_ratio_lt phase_orb_ext phase_orb_int
      (inclLo radii_ratio_lt phase_orb_ext phase_orb_int tol maxiter)) ∧
    ∀ y ∈ (finalState radii_ratio_lt phase_orb_ext phase_orb_int tol
        maxiter).incls,
      F.ltP (F.fin 0)
        (diff_radii_ratios radii_ratio_lt phase_orb_ext phase_orb_int y) →
      y ≤ inclLo radii_ratio_lt phase_orb_ext phase_orb_int tol maxiter := by
  have hmono := monoCheck_of_anti _ hfin hanti
  have hbr : F.ltP (F.fin 0) (pyGetF (incls0.map
      (diff_radii_ratios radii_ratio_lt phase_orb_ext phase_orb_int)) 0) ∧
      F.ltP (pyGetF (incls0.map
        (diff_radii_ratios radii_ratio_lt phase_orb_ext phase_orb_int)) (-1))
        (F.fin 0) :=
    ⟨by rw [pyGetF_map_incls0_zero]; exact hb0,
      by rw [pyGetF_map_incls0_last]; exact hb1⟩
  have hstep : finalState radii_ratio_lt phase_orb_ext phase_orb_int tol maxiter =
      solLoop (diff_radii_ratios radii_ratio_lt phase_orb_ext phase_orb_int)
        tol maxiter
        (solBody (diff_radii_ratios radii_ratio_lt phase_orb_ext phase_orb_int)
          (initState
            (diff_radii_ratios radii_ratio_lt phase_orb_ext phase_orb_int))) := by
    unfold finalState
    exact solLoop_step _ _ _ _ ⟨hspan, by rw [initState_inum]; omega⟩
  have hInv1 : InvOne (diff_radii_ratios radii_ratio_lt phase_orb_ext phase_orb_int)
      (solBody (diff_radii_ratios radii_ratio_lt phase_orb_ext phase_orb_int)
        (initState
          (diff_radii_ratios radii_ratio_lt phase_orb_ext phase_orb_int))) := by
    rw [solBody_of_inum_zero _ _ (by rw [initState_inum]; norm_num)]
    exact ⟨rfl, incls0_length, incls0_chain, incls0_bounds,
      one_le_cntPos (List.mem_map_of_mem _ zero_mem_incls0) hb0,
      one_le_cntNeg (List.mem_map_of_mem _ pi2_mem_incls0) hb1,
      rfl, rfl, rfl⟩
  have hInvF : InvOne (diff_radii_ratios radii_ratio_lt phase_orb_ext phase_orb_int)
      (finalState radii_ratio_lt phase_orb_ext phase_orb_int tol maxiter) := by
    rw [hstep]
    exact InvOne_loop _ _ _ hanti _ hInv1 (by
      simp only [solBody_inum, initState_inum]
      omega)
  obtain ⟨hmapF, hlenF, hchF, hbdF, hcpF, hcnF, hipF, hiqF, hinclF⟩ := hInvF
  rw [hmapF] at hcpF hcnF
  obtain ⟨haMem, hbMem, haPos, hbNeg, hab, hGreat, hLeast⟩ :=
    bracket_endpoints _ _ hlenF hchF hbdF hanti hcpF hcnF
  rw [← hmapF] at haMem haPos hGreat
  have hlo : inclLo radii_ratio_lt phase_orb_ext phase_orb_int tol maxiter =
      pyGet (finalState radii_ratio_lt phase_orb_ext phase_orb_int tol
        maxiter).incls
      ((cntPos (finalState radii_ratio_lt phase_orb_ext phase_orb_int tol
        maxiter).diffs : ℤ) - 1) := rfl
  refine ⟨?_, by rw [hlo]; exact haMem, by rw [hlo]; exact haPos,
    fun y hy hp => by rw [hlo]; exact hGreat y hy hp⟩
  unfold calcInclFull
  rw [if_neg (not_not_intro hmono), if_pos hbr]
  have hsF : solLoop (diff_radii_ratios radii_ratio_lt phase_orb_ext phase_orb_int)
      tol maxiter
      (initState (diff_radii_ratios radii_ratio_lt phase_orb_ext phase_orb_int)) =
      finalState radii_ratio_lt phase_orb_ext phase_orb_int tol maxiter := rfl
  rw [hsF, if_neg (fun h => hconv h.1), hinclF]
  rfl

theorem diff_pi2_anti (radii_ratio_lt x y : ℝ) (hx0 : 0 ≤ x) (hxy : x ≤ y)
    (hy : y ≤ π / 2) :
    F.leP (diff_radii_ratios radii_ratio_lt (π / 2) 0 y)
      (diff_radii_ratios radii_ratio_lt (π / 2) 0 x) := by
  have hcy : 0 ≤ Real.cos y :=
    Real.cos_nonneg_of_mem_Icc ⟨by linarith [pi_pos], hy⟩
  have hcx : 0 ≤ Real.cos x :=
    Real.cos_nonneg_of_mem_Icc ⟨by linarith [pi_pos], by linarith⟩
  have hcc : Real.cos y ≤ Real.cos x :=
    Real.cos_le_cos_of_nonneg_of_le_pi hx0 (by linarith [pi_pos]) hxy
  rw [diff_pi2_zero _ _ hcy, diff_pi2_zero _ _ hcx]
  simp only [F.leP_fin_fin]
  have hgy : (1 - Real.cos x) / (1 + Real.cos x) ≤
      (1 - Real.cos y) / (1 + Real.cos y) := by
    rw [div_le_div_iff (by linarith) (by linarith)]
    nlinarith
  linarith

/-! ## Claim C4: resampling bracket and loop guard -/

/-- C4 amended: in every zoom round after the first, the solver resamples
ten equally spaced inclinations over the bracket whose lower endpoint is
the largest sample with strictly positive diff and whose upper endpoint is
the *smallest* sample with strictly negative diff (the least-negative
sample, not the last negative one); the loop then repeats, and the
quantity compared against `tol` for continuation is the absolute
diff-function value at the new lower endpoint — a diff value, not an
inclination-angle difference and not the bracket's diff-value span. -/
theorem C4_resample_bracket_and_guard
    (radii_ratio_lt phase_orb_ext phase_orb_int tol : ℝ) (maxiter : ℤ)
    (s : SolState)
    (hanti : ∀ x y, 0 ≤ x → x ≤ y → y ≤ π / 2 →
      F.leP (diff_radii_ratios radii_ratio_lt phase_orb_ext phase_orb_int y)
        (diff_radii_ratios radii_ratio_lt phase_orb_ext phase_orb_int x))
    (hInv : InvOne (diff_radii_ratios radii_ratio_lt phase_orb_ext phase_orb_int) s)
    (hnum : 0 < s.inum)
    (hguard : F.ltP (F.fin tol) s.itol ∧ s.inum < maxiter) :
    (solBody (diff_radii_ratios radii_ratio_lt phase_orb_ext phase_orb_int)
        s).incls =
      linspace (pyGet s.incls s.idxPos) (pyGet s.incls s.idxNeg) ∧
    F.ltP (F.fin 0) (diff_radii_ratios radii_ratio_lt phase_orb_ext phase_orb_int
      (pyGet s.incls s.idxPos)) ∧
    (∀ y ∈ s.incls,
      F.ltP (F.fin 0)
        (diff_radii_ratios radii_ratio_lt phase_orb_ext phase_orb_int y) →
      y ≤ pyGet s.incls s.idxPos) ∧
    F.ltP (diff_radii_ratios radii_ratio_lt phase_orb_ext phase_orb_int
      (pyGet s.incls s.idxNeg)) (F.fin 0) ∧
    (∀ y ∈ s.incls,
      F.ltP (diff_radii_ratios radii_ratio_lt phase_orb_ext phase_orb_int y)
        (F.fin 0) →
      pyGet s.incls s.idxNeg ≤ y) ∧
    solLoop (diff_radii_ratios radii_ratio_lt phase_orb_ext phase_orb_int)
        tol maxiter s =
      solLoop (diff_radii_ratios radii_ratio_lt phase_orb_ext phase_orb_int)
        tol maxiter
        (solBody (diff_radii_ratios radii_ratio_lt phase_orb_ext phase_orb_int) s) ∧
    (solBody (diff_radii_ratios radii_ratio_lt phase_orb_ext phase_orb_int)
        s).itol =
      F.absF (diff_radii_ratios radii_ratio_lt phase_orb_ext phase_orb_int
        (pyGet (solBody (diff_radii_ratios radii_ratio_lt phase_orb_ext
            phase_orb_int) s).incls
          (solBody (diff_radii_ratios radii_ratio_lt phase_orb_ext
            phase_orb_int) s).idxPos)) := by
  obtain ⟨hmap, hlen, hch, hbd, hcp, hcn, hip, hiq, hincl⟩ := hInv
  rw [hmap] at hcp hcn
  obtain ⟨haMem, hbMem, haPos, hbNeg, hab, hGreat, hLeast⟩ :=
    bracket_endpoints _ _ hlen hch hbd hanti hcp hcn
  refine ⟨?_, ?_, ?_, ?_, ?_, solLoop_step _ _ _ _ hguard, ?_⟩
  · rw [solBody_of_inum_pos _ _ hnum]
  · rw [hip, hmap]
    exact haPos
  · intro y hy hp
    rw [hip, hmap]
    exact hGreat y hy hp
  · rw [hiq, hmap]
    exact hbNeg
  · intro y hy hn
    rw [hiq, hmap]
    exact hLeast y hy hn
  · rw [solBody_of_inum_pos _ _ hnum]

theorem pyGet_incls0_neg3 : pyGet incls0 (-3) = 7 * π / 18 := by
  rw [incls0_eq]
  rfl

theorem pyGet_mem_or_zero (l : List ℝ) (i : ℤ) :
    pyGet l i ∈ l ∨ pyGet l i = 0 := by
  unfold pyGet
  split
  · by_cases h : ((l.length : ℤ) + i).toNat < l.length
    · exact Or.inl (getD_mem 0 h)
    · exact Or.inr (List.getD_eq_default l 0 (by omega))
  · by_cases h : i.toNat < l.length
    · exact Or.inl (getD_mem 0 h)
    · exact Or.inr (List.getD_eq_default l 0 (by omega))

theorem d13_abs_pos {x : ℝ} (hx0 : 0 ≤ x) (hx2 : x ≤ π / 2) (hne : x ≠ π / 3) :
    F.ltP (F.fin 0) (F.absF (diff_radii_ratios (1 / 3) (π / 2) 0 x)) := by
  have hc : 0 ≤ Real.cos x :=
    Real.cos_nonneg_of_mem_Icc ⟨by linarith [pi_pos], hx2⟩
  rw [diff_pi2_zero _ _ hc, F.absF_fin]
  simp only [F.ltP_fin_fin]
  rw [abs_pos]
  intro hzero
  have hgc : (1 - Real.cos x) / (1 + Real.cos x) = 1 / 3 := by linarith
  rw [div_eq_iff (by linarith : (1:ℝ) + Real.cos x ≠ 0)] at hgc
  have hcx : Real.cos x = 1 / 2 := by linarith
  apply hne
  apply Real.injOn_cos ⟨hx0, by linarith [pi_pos]⟩
    ⟨by positivity, by linarith [pi_pos]⟩
  rw [hcx, Real.cos_pi_div_three]

theorem run13_c4_loop :
    solLoop (diff_radii_ratios (1 / 3) (π / 2) 0) 0 2
      (initState (diff_radii_ratios (1 / 3) (π / 2) 0)) =
    solBody (diff_radii_ratios (1 / 3) (π / 2) 0) s13one := by
  rw [solLoop_step _ _ _ _
    ⟨by rw [s0itol13]; simp only [F.ltP_fin_fin]; norm_num,
      by rw [initState_inum]; norm_num⟩]
  rw [run13_s1]
  rw [solLoop_step _ _ _ _
    ⟨s13one_itol_pos, by show (1:ℤ) < 2; norm_num⟩]
  exact solLoop_exit _ _ _ _ (fun h => by
    have h2 := h.2
    rw [solBody_inum] at h2
    have h1 : s13one.inum = 1 := rfl
    omega)

theorem s2_incls_getLast :
    (solBody (diff_radii_ratios (1 / 3) (π / 2) 0) s13one).incls.getLast? =
      some (7 * π / 18) := by
  rw [solBody_of_inum_pos _ _ (by show (0:ℤ) < 1; norm_num)]
  show (linspace (pyGet incls0 5) (pyGet incls0 (-3))).getLast? = _
  rw [pyGet_incls0_five, pyGet_incls0_neg3, linspace_eq]
  rfl

theorem s2_itol_pos :
    F.ltP (F.fin 0)
      (solBody (diff_radii_ratios (1 / 3) (π / 2) 0) s13one).itol := by
  rw [solBody_of_inum_pos _ _ (by show (0:ℤ) < 1; norm_num)]
  have e1 : pyGet s13one.incls s13one.idxPos = 5 * π / 18 := pyGet_incls0_five
  have e2 : pyGet s13one.incls s13one.idxNeg = 7 * π / 18 := pyGet_incls0_neg3
  rw [e1, e2]
  show F.ltP (F.fin 0) (F.absF (diff_radii_ratios (1 / 3) (π / 2) 0
    (pyGet (linspace (5 * π / 18) (7 * π / 18))
      ((cntPos ((linspace (5 * π / 18) (7 * π / 18)).map
        (diff_radii_ratios (1 / 3) (π / 2) 0)) : ℤ) - 1))))
  rcases pyGet_mem_or_zero (linspace (5 * π / 18) (7 * π / 18))
      ((cntPos ((linspace (5 * π / 18) (7 * π / 18)).map
        (diff_radii_ratios (1 / 3) (π / 2) 0)) : ℤ) - 1) with hmem | hzero
  · set x := pyGet (linspace (5 * π / 18) (7 * π / 18))
      ((cntPos ((linspace (5 * π / 18) (7 * π / 18)).map
        (diff_radii_ratios (1 / 3) (π / 2) 0)) : ℤ) - 1) with hx
    rw [linspace_eq] at hmem
    simp only [List.mem_cons, List.not_mem_nil, or_false] at hmem
    rcases hmem with h | h | h | h | h | h | h | h | h | h <;> rw [h] <;>
      exact d13_abs_pos (by linarith [pi_pos]) (by linarith [pi_pos])
        (fun heq => by linarith [pi_pos])
  · rw [hzero, d13_at_zero, F.absF_fin]
    simp only [F.ltP_fin_fin]
    rw [abs_pos]
    norm_num

theorem run13_c4_full :
    calcInclFull (1 / 3) (π / 2) 0 0 2 =
      .ok ⟨F.nan, [Warn.nonConv (1 / 3) (π / 2) 0 0],
        solBody (diff_radii_ratios (1 / 3) (π / 2) 0) s13one⟩ := by
  unfold calcInclFull
  rw [if_neg (not_not_intro (monoCheck_pi2_zero (1 / 3))), if_pos bracket13,
    run13_c4_loop]
  rw [if_pos ⟨s2_itol_pos, by
    rw [solBody_inum]
    have h1 : s13one.inum = 1 := rfl
    omega⟩]
  have hr : ratioAtF (π / 2) 0 F.nan = F.nan := rfl
  rw [hr, if_neg F.ltP_nan_left]

/-- Counterexample to C4 as stated: on input `(1/3, π/2, 0)` with `tol = 0`
and `maxiter = 2`, the second round resamples over an interval whose upper
endpoint — the last element of the final sample grid — is `7π/18`, the
*least*-negative first-round sample; yet the last first-round sample with
`diff < 0` is `π/2` (the final grid element of `incls0`), and
`7π/18 ≠ π/2`: the resample bracket's upper endpoint is not the
inclination at the last sample with negative diff. -/
theorem C4_counterexample :
    (calcInclFull (1 / 3) (π / 2) 0 0 2).map (fun r => r.final.incls.getLast?) =
      .ok (some (7 * π / 18)) ∧
    incls0.getLast? = some (π / 2) ∧
    F.ltP (diff_radii_ratios (1 / 3) (π / 2) 0 (π / 2)) (F.fin 0) ∧
    7 * π / 18 ≠ π / 2 := by
  refine ⟨?_, ?_, ?_, ?_⟩
  · rw [run13_c4_full]
    show Except.ok ((solBody (diff_radii_ratios (1 / 3) (π / 2) 0)
      s13one).incls.getLast?) = _
    rw [s2_incls_getLast]
  · rw [incls0_eq]
    rfl
  · exact d13_neg (by linarith [pi_pos]) (le_refl _)
  · intro h
    have := pi_pos
    linarith

/-- Witness for C4 amended, applied at the state reached after the first
round of the `(1/3, π/2, 0, 0, 2)` run. -/
theorem C4_witness :
    (solBody (diff_radii_ratios (1 / 3) (π / 2) 0) s13one).incls =
      linspace (pyGet s13one.incls s13one.idxPos)
        (pyGet s13one.incls s13one.idxNeg) ∧
    F.ltP (F.fin 0) (diff_radii_ratios (1 / 3) (π / 2) 0
      (pyGet s13one.incls s13one.idxPos)) ∧
    F.ltP (diff_radii_ratios (1 / 3) (π / 2) 0
      (pyGet s13one.incls s13one.idxNeg)) (F.fin 0) ∧
    solLoop (diff_radii_ratios (1 / 3) (π / 2) 0) 0 2 s13one =
      solLoop (diff_radii_ratios (1 / 3) (π / 2) 0) 0 2
        (solBody (diff_radii_ratios (1 / 3) (π / 2) 0) s13one) ∧
    (solBody (diff_radii_ratios (1 / 3) (π / 2) 0) s13one).itol =
      F.absF (diff_radii_ratios (1 / 3) (π / 2) 0
        (pyGet (solBody (diff_radii_ratios (1 / 3) (π / 2) 0) s13one).incls
          (solBody (diff_radii_ratios (1 / 3) (π / 2) 0) s13one).idxPos)) := by
  have hInv : InvOne (diff_radii_ratios (1 / 3) (π / 2) 0) s13one := by
    refine ⟨rfl, incls0_length, incls0_chain, incls0_bounds, ?_, ?_, ?_, ?_, ?_⟩
    · show 1 ≤ cntPos (incls0.map (diff_radii_ratios (1 / 3) (π / 2) 0))
      rw [cntPos13]
      norm_num
    · show 1 ≤ cntNeg (incls0.map (diff_radii_ratios (1 / 3) (π / 2) 0))
      rw [cntNeg13]
      norm_num
    · show (5:ℤ) =
        (cntPos (incls0.map (diff_radii_ratios (1 / 3) (π / 2) 0)) : ℤ) - 1
      rw [cntPos13]
      norm_num
    · show (-3:ℤ) =
        -(cntNeg (incls0.map (diff_radii_ratios (1 / 3) (π / 2) 0)) : ℤ)
      rw [cntNeg13]
      norm_num
    · show some (F.fin (5 * π / 18)) = some (F.fin (pyGet incls0
        ((cntPos (incls0.map (diff_radii_ratios (1 / 3) (π / 2) 0)) : ℤ) - 1)))
      rw [cntPos13]
      norm_num
      rw [pyGet_incls0_five]
  have h := C4_resample_bracket_and_guard (1 / 3) (π / 2) 0 0 2 s13one
    (fun x y hx0 hxy hy => diff_pi2_anti (1 / 3) x y hx0 hxy hy)
    hInv
    (by show (0:ℤ) < 1; norm_num)
    ⟨s13one_itol_pos, by show (1:ℤ) < 2; norm_num⟩
  exact ⟨h.1, h.2.1, h.2.2.2.1, h.2.2.2.2.2.1, h.2.2.2.2.2.2⟩

end
